import Mathlib

/-!
Verification of the stock-dashboard market-data layer.

Shallow embedding of the market-data acquisition and caching layer of the
stock-dashboard repository (`server/stockService.ts`, Twelve Data primary +
yfinance fallback version, and the daily scheduler), together with proofs of
the specification claims about it.

Modelling conventions:
* JavaScript strings are Lean `String`s; all operations are defined through
  the underlying character list (`String.data`), with `Char.toUpper`
  modelling `toUpperCase` (ASCII, as in the source's symbol universe) and a
  four-character whitespace class modelling `trim`.
* JavaScript numbers are embedded as exact arithmetic over a linear ordered
  field (`ℚ` for executable instances, `ℝ` where `Math.log`/`Math.sqrt` give
  the intended semantics); `x / 0 = 0` conventions only arise on paths the
  source guards.
* Fallible network calls are part of an explicit environment (`Env`): each
  upstream response is either `none` (timeout / HTTP error / error payload,
  all of which the source collapses into the same fallback path) or a parsed
  payload.
-/

namespace StockDash

/-! ## JS string primitives (`toUpperCase`, `trim`, suffix/infix tests) -/

/-- The characters removed by `String.prototype.trim` (ASCII fragment). -/
def jsWs (c : Char) : Bool :=
  c = ' ' || c = '\t' || c = '\n' || c = '\r'

/-- `s.toUpperCase()` (ASCII). -/
def jsUpper (s : String) : String :=
  ⟨s.data.map Char.toUpper⟩

/-- `s.trim()`. -/
def jsTrim (s : String) : String :=
  ⟨((s.data.dropWhile jsWs).reverse.dropWhile jsWs).reverse⟩

/-- `s.endsWith(suf)` for a literal suffix. -/
def endsWithS (s suf : String) : Bool :=
  suf.data.isSuffixOf s.data

/-- `s.includes(sub)` for a literal fragment. -/
def containsS (s sub : String) : Bool :=
  s.data.tails.any (sub.data.isPrefixOf ·)

/-- Remove a literal suffix if present (one occurrence, as a non-global
anchored `String.replace`). -/
def dropSuffixS (s suf : String) : String :=
  if endsWithS s suf then ⟨s.data.take (s.data.length - suf.data.length)⟩ else s

/-- `s.replace(/:XTAI$/i, "")` applied to an already-uppercased string. -/
def stripXTAI (s : String) : String := dropSuffixS s ":XTAI"

/-- `s.replace(/\.TW$|\.TWO$/i, "")` applied to an already-uppercased string:
the two alternatives are mutually exclusive at the string end. -/
def stripTwSuffix (s : String) : String :=
  if endsWithS s ".TWO" then dropSuffixS s ".TWO" else dropSuffixS s ".TW"

/-- `s.replace(/\.TW$|\.TWO$|:XTAI$/i, "")` applied to an uppercased string
(`detectMarket`): at most one of the three end-anchored alternatives matches. -/
def stripMarketSuffix (s : String) : String :=
  if endsWithS s ":XTAI" then dropSuffixS s ":XTAI"
  else if endsWithS s ".TWO" then dropSuffixS s ".TWO"
  else dropSuffixS s ".TW"

/-- `/^\d{4,6}$/.test(s)`. -/
def isDigits4to6 (s : String) : Bool :=
  decide (4 ≤ s.data.length) && decide (s.data.length ≤ 6) && s.data.all Char.isDigit

/-- Case-insensitive `endsWith` against an uppercase suffix, for the
`getTwBaseCode` regexes that run on a raw (not yet uppercased) string. -/
def endsWithCI (s suf : String) : Bool :=
  suf.data.isSuffixOf (s.data.map Char.toUpper)

/-- Case-insensitive anchored suffix removal (uppercase `suf`). -/
def dropSuffixCI (s suf : String) : String :=
  if endsWithCI s suf then ⟨s.data.take (s.data.length - suf.data.length)⟩ else s

/-! ## Symbol helpers (`stockService.ts` lines 381–407) -/

inductive Market where
  | US
  | TW
deriving DecidableEq, Repr

inductive Currency where
  | USD
  | TWD
deriving DecidableEq, Repr

/-- `getTwBaseCode` (line 381):
`s.replace(/\.TW$|\.TWO$/i, "").replace(/:XTAI$/i, "").trim()`. -/
def getTwBaseCode (s : String) : String :=
  jsTrim (dropSuffixCI (if endsWithCI s ".TWO" then dropSuffixCI s ".TWO" else dropSuffixCI s ".TW") ":XTAI")

/-- `toTwelveDataSymbol` (lines 382–388). -/
def toTwelveDataSymbol (s : String) : String :=
  let u := jsTrim (jsUpper s)
  if containsS u ":XTAI" then u
  else
    let base := stripTwSuffix u
    if isDigits4to6 base then base ++ ":XTAI" else u

/-- `toYfinanceSymbol` (lines 389–395). -/
def toYfinanceSymbol (s : String) : String :=
  let u := jsTrim (jsUpper s)
  if endsWithS u ".TW" || endsWithS u ".TWO" then u
  else
    let base := stripTwSuffix (stripXTAI u)
    if isDigits4to6 base then base ++ ".TW" else u

/-- The base computed inside `canonicalSymbol` (lines 397–398):
`s.toUpperCase().trim().replace(/:XTAI$/i, "").replace(/\.TW$|\.TWO$/i, "")`. -/
def canonBase (s : String) : String :=
  stripTwSuffix (stripXTAI (jsTrim (jsUpper s)))

/-- `canonicalSymbol` (lines 396–401). -/
def canonicalSymbol (s : String) : String :=
  let base := canonBase s
  if isDigits4to6 base then base ++ ".TW" else base

/-- `detectMarket` (lines 402–407). -/
def detectMarket (s : String) : Market × Currency :=
  let u := jsUpper s
  if containsS u ":XTAI" || endsWithS u ".TW" || endsWithS u ".TWO" then (Market.TW, Currency.TWD)
  else if isDigits4to6 (stripMarketSuffix u) then (Market.TW, Currency.TWD)
  else (Market.US, Currency.USD)

/-! ## Sector tables (`stockService.ts` lines 325–378) -/

/-- `TW_SECTOR_MAP` as an association list `code ↦ (name, sector)`. -/
def TW_SECTOR_MAP : List (String × String × String) := [
  ("2330", "台積電", "半導體"), ("2303", "聯電", "半導體"),
  ("2454", "聯發科", "半導體"), ("3711", "日月光投控", "半導體"),
  ("2379", "瑞昱", "半導體"), ("3034", "聯詠", "半導體"),
  ("2408", "南亞科", "半導體"), ("6415", "矽力-KY", "半導體"),
  ("3661", "世芯-KY", "半導體"), ("5274", "信驊", "半導體"),
  ("3443", "創意", "半導體"), ("6147", "頎邦", "半導體"),
  ("2317", "鴻海", "電子"), ("2382", "廣達", "電子"),
  ("3231", "緯創", "電子"), ("2356", "英業達", "電子"),
  ("2353", "宏碁", "電子"), ("2357", "華碩", "電子"),
  ("4938", "和碩", "電子"), ("3037", "欣興", "電子"),
  ("6669", "緯穎", "電子"), ("2345", "智邦", "電子"),
  ("2474", "可成", "電子"), ("6153", "嘉澤端子", "電子"),
  ("2308", "台達電", "電子"), ("2301", "光寶科", "電子"),
  ("3008", "大立光", "光電"), ("2395", "研華", "電子"),
  ("2912", "統一超", "食品"), ("1216", "統一", "食品"),
  ("2884", "玉山金", "金融"), ("2881", "富邦金", "金融"),
  ("2882", "國泰金", "金融"), ("2886", "兆豐金", "金融"),
  ("2891", "中信金", "金融"), ("2885", "元大金", "金融"),
  ("2880", "華南金", "金融"), ("2883", "開發金", "金融"),
  ("2892", "第一金", "金融"), ("2887", "台新金", "金融"),
  ("2890", "永豐金", "金融"),
  ("1301", "台塑", "塑化"), ("1303", "南亞", "塑化"),
  ("1326", "台化", "塑化"), ("6505", "台塑化", "塑化"),
  ("2002", "中鋼", "鋼鐵"), ("1101", "台泥", "水泥"),
  ("2207", "和泰車", "汽車"), ("9910", "豐泰", "紡織"),
  ("1590", "亞德客-KY", "機械"), ("9904", "寶成", "紡織"),
  ("2105", "正新", "橡膠"), ("9921", "巨大", "自行車"),
  ("8454", "富邦媒", "電商"), ("5871", "中租-KY", "租賃"),
  ("6446", "藥華藥", "生技"), ("4743", "合一", "生技"),
  ("6472", "保瑞", "生技"),
  ("0050", "元大台灣50", "ETF"), ("0056", "元大高股息", "ETF"),
  ("006205", "元大標普500", "ETF"), ("00878", "國泰永續高股息", "ETF"),
  ("00881", "國泰台灣5G+", "ETF"), ("00919", "群益台灣精選高息", "ETF"),
  ("00929", "復華台灣科技優息", "ETF"), ("00940", "元大台灣價值高息", "ETF")]

/-- `TW_SECTOR_MAP[base]` (`undefined` ↦ `none`). -/
def twLookup (k : String) : Option (String × String) :=
  (TW_SECTOR_MAP.find? (fun e => e.1 == k)).map (·.2)

/-- `US_SECTOR_MAP`. -/
def US_SECTOR_MAP : List (String × String) := [
  ("AAPL", "Technology"), ("MSFT", "Technology"), ("GOOGL", "Technology"), ("META", "Technology"),
  ("NVDA", "Technology"), ("AMD", "Technology"), ("INTC", "Technology"), ("AVGO", "Technology"),
  ("CRM", "Technology"), ("ADBE", "Technology"), ("ORCL", "Technology"), ("CSCO", "Technology"),
  ("TXN", "Technology"), ("QCOM", "Technology"), ("MU", "Technology"), ("AMAT", "Technology"),
  ("NOW", "Technology"), ("PANW", "Technology"), ("PLTR", "Technology"), ("CRWD", "Technology"),
  ("AMZN", "Consumer Cyclical"), ("TSLA", "Consumer Cyclical"), ("HD", "Consumer Cyclical"),
  ("NKE", "Consumer Cyclical"), ("MCD", "Consumer Cyclical"), ("SBUX", "Consumer Cyclical"),
  ("PG", "Consumer Defensive"), ("KO", "Consumer Defensive"), ("PEP", "Consumer Defensive"),
  ("WMT", "Consumer Defensive"), ("COST", "Consumer Defensive"),
  ("JPM", "Financial Services"), ("BAC", "Financial Services"), ("GS", "Financial Services"),
  ("V", "Financial Services"), ("MA", "Financial Services"),
  ("JNJ", "Healthcare"), ("UNH", "Healthcare"), ("LLY", "Healthcare"), ("ABBV", "Healthcare"),
  ("NFLX", "Communication Services"), ("DIS", "Communication Services"),
  ("BA", "Industrials"), ("CAT", "Industrials"), ("GE", "Industrials"),
  ("XOM", "Energy"), ("CVX", "Energy"), ("NEE", "Utilities"),
  ("SPY", "ETF"), ("QQQ", "ETF"), ("VTI", "ETF"), ("VOO", "ETF")]

/-- `US_SECTOR_MAP[k]` (`undefined` ↦ `none`). -/
def usLookup (k : String) : Option String :=
  (US_SECTOR_MAP.find? (fun e => e.1 == k)).map (·.2)

/-! ## Data model and JS falsy-default helpers -/

/-- `StockFullData` (lines 410–417), numbers embedded as `ℚ`. -/
structure StockFullData where
  symbol : String
  name : String
  price : ℚ
  prevClose : ℚ
  change : ℚ
  changePct : ℚ
  high52w : ℚ
  low52w : ℚ
  ma50 : ℚ
  ma200 : ℚ
  rsi : ℚ
  pe : Option ℚ
  divYield : ℚ
  marketCap : Option ℚ
  sector : String
  earningsGrowth : ℚ
  targetPrice : Option ℚ
  volume : Option ℚ
  beta : ℚ
  volatility30d : ℚ
  sparkline : List ℚ
  volCategory : String
deriving DecidableEq, Repr

/-- `x || d` for an optional JS number (`0`, `NaN` and `undefined` are falsy;
a missing or non-numeric field is `none`). -/
def jsOrQ (x : Option ℚ) (d : ℚ) : ℚ :=
  match x with
  | some v => if v = 0 then d else v
  | none => d

/-- `x || null` for an optional JS number. -/
def jsOrNull (x : Option ℚ) : Option ℚ :=
  match x with
  | some v => if v = 0 then none else some v
  | none => none

/-- `x || d` for an optional JS string (`""` and `undefined` are falsy). -/
def jsOrStr (x : Option String) (d : String) : String :=
  match x with
  | some v => if v = "" then d else v
  | none => d

/-- `createFallbackData` (lines 418–428). -/
def createFallbackData (symbol : String) : StockFullData :=
  let market := (detectMarket symbol).1
  let base := getTwBaseCode symbol
  let tw := if market = Market.TW then twLookup base else none
  let c := canonicalSymbol symbol
  { symbol := c, name := jsOrStr (tw.map (·.1)) c, price := 0, prevClose := 0, change := 0,
    changePct := 0, high52w := 0, low52w := 0, ma50 := 0, ma200 := 0, rsi := 50, pe := none,
    divYield := 0, marketCap := none,
    sector := jsOrStr (tw.map (·.2)) (jsOrStr (usLookup c) "Other"),
    earningsGrowth := 0, targetPrice := none, volume := none, beta := 1, volatility30d := 20,
    sparkline := [], volCategory := "中波動" }

/-! ## Technical indicators (lines 431–470)

The numeric functions are generic over a `LinearOrderedField`; the intended
semantics instantiates `ℝ` with `Math.log = Real.log`, `Math.sqrt = Real.sqrt`
(passed explicitly to `calcVol`); `ℚ` gives an executable instance for the
purely rational ones. -/

/-- `calcMA` (lines 431–434). -/
def calcMA {F : Type} [LinearOrderedField F] (closes : List F) (p : ℕ) : F :=
  if closes.length < p then 0 else ((closes.take p).sum) / p

/-- The `period` deltas `closes[i] - closes[i+1]` used by `calcRSI`. -/
def rsiDeltas {F : Type} [LinearOrderedField F] (closes : List F) (period : ℕ) : List F :=
  (List.range period).map (fun i => closes.getD i 0 - closes.getD (i + 1) 0)

/-- Average gain over the first `period` deltas (`ag` in `calcRSI`). -/
def rsiAvgGain {F : Type} [LinearOrderedField F] (closes : List F) (period : ℕ) : F :=
  ((rsiDeltas closes period).map (fun d => if 0 < d then d else 0)).sum / period

/-- Average loss over the first `period` deltas (`al` in `calcRSI`). -/
def rsiAvgLoss {F : Type} [LinearOrderedField F] (closes : List F) (period : ℕ) : F :=
  ((rsiDeltas closes period).map (fun d => if 0 < d then 0 else -d)).sum / period

/-- `calcRSI` (lines 435–442). -/
def calcRSI {F : Type} [LinearOrderedField F] (closes : List F) (period : ℕ) : F :=
  if closes.length < period + 1 then 50
  else
    let ag := rsiAvgGain closes period
    let al := rsiAvgLoss closes period
    if al = 0 then 100 else 100 - (100 / (1 + ag / al))

/-- The index set of usable log-return samples in `calcVol`: positions
`i < min days (closes.length - 1)` whose older close `closes[i+1]` is
positive. -/
def volRetIdx {F : Type} [LinearOrderedField F] (closes : List F) (days : ℕ) : List ℕ :=
  (List.range (min days (closes.length - 1))).filter (fun i => 0 < closes.getD (i + 1) 0)

/-- The `ret` array of `calcVol`: log returns at the usable positions. -/
def volLogReturns {F : Type} [LinearOrderedField F] (lg : F → F) (closes : List F)
    (days : ℕ) : List F :=
  (volRetIdx closes days).map (fun i => lg (closes.getD i 0 / closes.getD (i + 1) 0))

/-- `calcVol` (lines 443–452); `lg` and `sq` stand for `Math.log` and
`Math.sqrt`. -/
def calcVol {F : Type} [LinearOrderedField F] (lg sq : F → F) (closes : List F)
    (days : ℕ) : F :=
  if closes.length < days + 1 then 20
  else
    let ret := volLogReturns lg closes days
    if ret.length < 5 then 20
    else
      let m := ret.sum / (ret.length : F)
      let v := (ret.map (fun b => (b - m) ^ 2)).sum / (ret.length : F)
      sq v * sq 252 * 100

/-- The paired index set of `calcBeta`: positions `i < n` where both older
closes are positive (`n = min(days, sc.length-1, bc.length-1)`). -/
def betaIdx {F : Type} [LinearOrderedField F] (sc bc : List F) (days : ℕ) : List ℕ :=
  (List.range (min days (min (sc.length - 1) (bc.length - 1)))).filter
    (fun i => 0 < sc.getD (i + 1) 0 && 0 < bc.getD (i + 1) 0)

/-- The paired daily returns of the symbol series (`sr` in `calcBeta`). -/
def betaSr {F : Type} [LinearOrderedField F] (sc bc : List F) (days : ℕ) : List F :=
  (betaIdx sc bc days).map (fun i => (sc.getD i 0 - sc.getD (i + 1) 0) / sc.getD (i + 1) 0)

/-- The paired daily returns of the benchmark series (`br` in `calcBeta`). -/
def betaBr {F : Type} [LinearOrderedField F] (sc bc : List F) (days : ℕ) : List F :=
  (betaIdx sc bc days).map (fun i => (bc.getD i 0 - bc.getD (i + 1) 0) / bc.getD (i + 1) 0)

/-- `calcBeta` (lines 453–469). -/
def calcBeta {F : Type} [LinearOrderedField F] (sc bc : List F) (days : ℕ) : F :=
  let n := min days (min (sc.length - 1) (bc.length - 1))
  if n < 10 then 1
  else
    let sr := betaSr sc bc days
    let br := betaBr sc bc days
    if sr.length < 10 then 1
    else
      let ms := sr.sum / (sr.length : F)
      let mb := br.sum / (br.length : F)
      let cov := ((sr.zip br).map (fun p => (p.1 - ms) * (p.2 - mb))).sum
      let vb := (br.map (fun r => (r - mb) ^ 2)).sum
      if 0 < vb then cov / vb else 1

/-- `volCat` (line 470). -/
def volCat (v : ℚ) : String :=
  if 35 ≤ v then "高波動" else if 20 ≤ v then "中波動" else "低波動"

/-- `v.toFixed(n)` coerced back to a number (`+x.toFixed(n)`), idealized as
exact decimal rounding (half up). -/
def jsToFixed (n : ℕ) (x : ℚ) : ℚ :=
  (round (x * 10 ^ n) : ℤ) / 10 ^ n

/-! ## Provider environment

The network is modelled by an explicit environment. A `tdFetch` that timed
out, got a non-2xx status, or received an error payload returns `null` in the
source; all of these are `none` here. A parsed Twelve Data quote can itself
be an error object (`q.code === 400 || q.status === "error"`), recorded by
`isError`. The yfinance `/batch_full` response is a positionally aligned
array; `none` models `!r.ok` and thrown `fetch` errors alike. -/

/-- One parsed Twelve Data quote object; numeric fields are `none` when the
JSON field is missing or not coercible (`+q.f` is `NaN`). -/
structure TDQuote where
  isError : Bool
  qname : Option String
  close : Option ℚ
  previous_close : Option ℚ
  qchange : Option ℚ
  percent_change : Option ℚ
  high52 : Option ℚ
  low52 : Option ℚ
  pe : Option ℚ
  dividend_yield : Option ℚ
  volume : Option ℚ
  exchange : Option String
deriving DecidableEq, Repr

/-- One element of the yfinance `/batch_full` response array. -/
structure YfRaw where
  error : Bool
  yname : Option String
  price : Option ℚ
  prevClose : Option ℚ
  ychange : Option ℚ
  changePct : Option ℚ
  high52w : Option ℚ
  low52w : Option ℚ
  ma50 : Option ℚ
  ma200 : Option ℚ
  rsi : Option ℚ
  pe : Option ℚ
  divYield : Option ℚ
  marketCap : Option ℚ
  volume : Option ℚ
  beta : Option ℚ
  volatility30d : Option ℚ
  sector : Option String
  volCategory : Option String
  sparkline : Option (List ℚ)
deriving DecidableEq, Repr

/-- The world a single `batchGetFullData` call runs against. -/
structure Env where
  /-- `TWELVE_DATA_KEY !== ""`. -/
  hasKey : Bool
  /-- The memory cache at call time: canonical symbol (the part of the key
  after `full:`) ↦ entry, `none` for miss/expired. -/
  cache : String → Option StockFullData
  /-- Parsed `/quote` response: `none` when `tdFetch` returned `null`,
  otherwise the quotes map keyed by Twelve Data symbol. -/
  tdQuotes : Option (String → Option TDQuote)
  /-- Parsed `/time_series` per Twelve Data symbol (`[]` when absent). -/
  tdSeries : String → List ℚ
  /-- Benchmark closes from `getBenchCloses` (SPY / 0050:XTAI). -/
  benchUS : List ℚ
  benchTW : List ℚ
  /-- `checkYfinance()` result. -/
  yfAvailable : Bool
  /-- Parsed `/batch_full` array: `none` for `!r.ok` or a thrown fetch. -/
  yfResp : Option (List YfRaw)
  /-- The JS float `Math.log` and `Math.sqrt`, uninterpreted over `ℚ`. -/
  lg : ℚ → ℚ
  sq : ℚ → ℚ

/-- The per-symbol body of `fetchFromTwelveData`'s final `symbols.map`
(lines 530–562). -/
def tdMapOne (env : Env) (quotes : String → Option TDQuote) (raw : String) : StockFullData :=
  let td := toTwelveDataSymbol raw
  let closes := env.tdSeries td
  let c := canonicalSymbol raw
  let market := (detectMarket raw).1
  let base := getTwBaseCode raw
  let tw := if market = Market.TW then twLookup base else none
  match quotes td with
  | none => createFallbackData raw
  | some q =>
    if q.isError then createFallbackData raw
    else
      let price := jsOrQ q.close 0
      let prevClose := jsOrQ q.previous_close 0
      let change := jsOrQ q.qchange (price - prevClose)
      let changePct := jsOrQ q.percent_change (if 0 < prevClose then change / prevClose * 100 else 0)
      let vol := calcVol env.lg env.sq closes 30
      let bc := if market = Market.TW then env.benchTW else env.benchUS
      { symbol := c, name := jsOrStr (tw.map (·.1)) (jsOrStr q.qname c),
        price := price, prevClose := prevClose, change := change, changePct := changePct,
        high52w := jsOrQ q.high52 0, low52w := jsOrQ q.low52 0,
        ma50 := calcMA closes 50, ma200 := calcMA closes 200,
        rsi := calcRSI closes 14, pe := jsOrNull q.pe,
        divYield := jsOrQ q.dividend_yield 0, marketCap := none,
        sector := jsOrStr (tw.map (·.2)) (jsOrStr (usLookup c) (jsOrStr q.exchange "Other")),
        earningsGrowth := 0, targetPrice := none, volume := jsOrNull q.volume,
        beta := jsToFixed 2 (calcBeta closes bc 60),
        volatility30d := jsToFixed 1 vol, sparkline := (closes.take 30).reverse,
        volCategory := volCat vol }

/-- `fetchFromTwelveData` (lines 502–563). -/
def fetchFromTwelveData (env : Env) (symbols : List String) : List StockFullData :=
  if env.hasKey = false || symbols.isEmpty then symbols.map createFallbackData
  else
    match env.tdQuotes with
    | none => symbols.map createFallbackData
    | some quotes => symbols.map (tdMapOne env quotes)

/-- The per-position body of `fetchFromYfinance`'s `symbols.map((sym, i) => …)`
(lines 576–589); `j` is the position, `arr` the parsed response array. -/
def yfMapOne (arr : List YfRaw) (j : ℕ) (sym : String) : StockFullData :=
  match arr[j]? with
  | none => createFallbackData sym
  | some d =>
    if d.error then createFallbackData sym
    else
      let market := (detectMarket sym).1
      let base := getTwBaseCode sym
      let tw := if market = Market.TW then twLookup base else none
      let c := canonicalSymbol sym
      { symbol := c, name := jsOrStr (tw.map (·.1)) (jsOrStr d.yname c),
        price := jsOrQ d.price 0, prevClose := jsOrQ d.prevClose 0,
        change := jsOrQ d.ychange 0, changePct := jsOrQ d.changePct 0,
        high52w := jsOrQ d.high52w 0, low52w := jsOrQ d.low52w 0,
        ma50 := jsOrQ d.ma50 0, ma200 := jsOrQ d.ma200 0,
        rsi := jsOrQ d.rsi 50, pe := jsOrNull d.pe,
        divYield := jsOrQ d.divYield 0, marketCap := jsOrNull d.marketCap,
        sector := jsOrStr (tw.map (·.2)) (jsOrStr d.sector (jsOrStr (usLookup c) "Other")),
        earningsGrowth := 0, targetPrice := none, volume := jsOrNull d.volume,
        beta := jsOrQ d.beta 1, volatility30d := jsOrQ d.volatility30d 20,
        sparkline := d.sparkline.getD [], volCategory := jsOrStr d.volCategory "中波動" }

/-- `fetchFromYfinance` (lines 566–591). -/
def fetchFromYfinance (env : Env) (symbols : List String) : List StockFullData :=
  if env.yfAvailable = false then symbols.map createFallbackData
  else
    match env.yfResp with
    | none => symbols.map createFallbackData
    | some arr => symbols.mapIdx (fun j sym => yfMapOne arr j sym)

/-! ## The aggregator `batchGetFullData` (lines 594–616) -/

/-- The `results` map / memory cache, as a lookup function. -/
def Results : Type := String → Option StockFullData

/-- `Map.set` / keyed insert. -/
def setMap (m : Results) (k : String) (v : StockFullData) : Results :=
  fun x => if x = k then some v else m x

def emptyMap : Results := fun _ => none

/-- One iteration of the cache-partition loop (lines 598–601): a hit is
recorded in `results` under the raw symbol, a miss is appended to
`uncached`. -/
def partitionStep (env : Env) (acc : Results × List String) (s : String) :
    Results × List String :=
  match env.cache (canonicalSymbol s) with
  | some c => (setMap acc.1 s c, acc.2)
  | none => (acc.1, acc.2 ++ [s])

/-- The cache-partition loop (lines 598–601): accumulates the `results`
entries of cache hits and the `uncached` list, in input order. -/
def partitionSymbols (env : Env) (symbols : List String) : Results × List String :=
  symbols.foldl (partitionStep env) (emptyMap, [])

/-- The provider dispatch for the cache-miss set (lines 603–612). The `Bool`
is ghost instrumentation recording whether the yfinance fallback adapter was
invoked; the record list is exactly what the source computes. -/
def fetchForMisses (env : Env) (uncached : List String) : List StockFullData × Bool :=
  if env.hasKey then
    let fetched := fetchFromTwelveData env uncached
    if fetched.all (fun d => d.price = 0) then (fetchFromYfinance env uncached, true)
    else (fetched, false)
  else (fetchFromYfinance env uncached, true)

/-- The store key of iteration `j` of the write-back loop (line 613):
`uncached[fetched.indexOf(d)] || d.symbol`. `indexOf` compares object
references, and every fetched record is a fresh object, so it yields the
element's own position `j`; the `|| d.symbol` branch fires exactly when
`uncached[j]` is the falsy string `""`. -/
def storeKey (uncached : List String) (j : ℕ) (d : StockFullData) : String :=
  if uncached.getD j "" = "" then d.symbol else uncached.getD j ""

/-- One iteration of the write-back loop (line 613): the record is written
into `results` under the raw requested symbol and into the cache under its
own canonical symbol. -/
def storeStep (uncached : List String) (rc : Results × Results) (jd : ℕ × StockFullData) :
    Results × Results :=
  (setMap rc.1 (storeKey uncached jd.1 jd.2) jd.2, setMap rc.2 jd.2.symbol jd.2)

/-- The write-back loop (line 613). -/
def storeFetched (uncached : List String) (fetched : List StockFullData)
    (rs : Results) (ch : Results) : Results × Results :=
  fetched.enum.foldl (storeStep uncached) (rs, ch)

/-- The `results` map and cache after the fetch/write-back phase of
`batchGetFullData` (lines 602–614): if every symbol was cached nothing is
fetched, otherwise the fetched records are written back. -/
def batchStep (env : Env) (symbols : List String) : Results × Results :=
  if (partitionSymbols env symbols).2.isEmpty then ((partitionSymbols env symbols).1, env.cache)
  else
    storeFetched (partitionSymbols env symbols).2
      (fetchForMisses env (partitionSymbols env symbols).2).1
      (partitionSymbols env symbols).1 env.cache

/-- `batchGetFullData` (lines 594–616): the final projection looks each
requested symbol up in `results`, then in the cache, then synthesizes a
fallback record. -/
def batchGetFullData (env : Env) (symbols : List String) : List StockFullData :=
  if symbols.isEmpty then []
  else
    symbols.map (fun s =>
      (((batchStep env symbols).1 s).or
        ((batchStep env symbols).2 (canonicalSymbol s))).getD (createFallbackData s))

/-! ## The daily scheduler (`part_007`) -/

/-- Observable scheduler effects, for the claims about call structure. -/
inductive SchedAction where
  | fetchBatch (syms : List String)
  | pause (ms : ℕ)
  | flush
  | reschedule
deriving DecidableEq, Repr

/-- `BATCH_SIZE` (line 47). -/
def BATCH_SIZE : ℕ := 5

/-- The scheduler's world: the provider environment plus the per-batch
`catch` path of lines 54–57 (`batchThrows k` = the `k`-th `batchGetFullData`
call threw) and the `getSymbolsFn` callback (`none` = it threw). -/
structure SchedEnv where
  env : Env
  batchThrows : ℕ → Bool
  getSymbols : Option (List String)

/-- The batch loop of `runDailyUpdate` (lines 48–62): returns the action
trace and the `(updated, failed)` tallies. -/
def runBatches (E : SchedEnv) (symbols : List String) (i : ℕ) :
    List SchedAction × ℕ × ℕ :=
  if _h : i < symbols.length then
    let batch := (symbols.drop i).take BATCH_SIZE
    let bres : ℕ × ℕ :=
      if E.batchThrows (i / BATCH_SIZE) then (0, batch.length)
      else
        let results := batchGetFullData E.env batch
        ((results.filter (fun r => 0 < r.price)).length,
         (results.filter (fun r => r.price = 0)).length)
    let pauseActs : List SchedAction :=
      if i + BATCH_SIZE < symbols.length then [SchedAction.pause 3000] else []
    let rest := runBatches E symbols (i + BATCH_SIZE)
    (SchedAction.fetchBatch batch :: pauseActs ++ rest.1, bres.1 + rest.2.1, bres.2 + rest.2.2)
  else ([], 0, 0)
termination_by symbols.length - i
decreasing_by simp_wf; simp only [BATCH_SIZE]; omega

/-- `runDailyUpdate` (lines 34–74): takes the `_isRunning` flag, returns
`(updated, failed)`, the action trace, and the flag after the call. -/
def runDailyUpdate (E : SchedEnv) (symbols : List String) (running : Bool) :
    (ℕ × ℕ) × List SchedAction × Bool :=
  if running then ((0, 0), [], running)
  else
    let r := runBatches E symbols 0
    ((r.2.1, r.2.2), r.1 ++ [SchedAction.flush], false)

/-- One firing of the timer installed by `startScheduler` (lines 83–94):
fetch the symbols (the `catch` logs and falls through), run the update if
nonempty, then reschedule unconditionally. -/
def schedulerTick (E : SchedEnv) (running : Bool) : List SchedAction × Bool :=
  match E.getSymbols with
  | none => ([SchedAction.reschedule], running)
  | some syms =>
    if 0 < syms.length then
      let r := runDailyUpdate E syms running
      (r.2.1 ++ [SchedAction.reschedule], r.2.2)
    else ([SchedAction.reschedule], running)

/-! ## Character and string lemmas -/

theorem data_mk (l : List Char) : (String.mk l).data = l := rfl

theorem toNat_ofNat_of_lt {n : ℕ} (h : n < 55296) : (Char.ofNat n).toNat = n := by
  have hv : n.isValidChar := Or.inl h
  simp only [Char.ofNat, dif_pos hv]
  rfl

theorem toUpper_eq_self {c : Char} (h : ¬(c.toNat ≥ 97 ∧ c.toNat ≤ 122)) : c.toUpper = c := by
  simp only [Char.toUpper]
  rw [if_neg h]

theorem toUpper_of_lower {c : Char} (h : c.toNat ≥ 97 ∧ c.toNat ≤ 122) :
    c.toUpper = Char.ofNat (c.toNat - 32) := by
  simp only [Char.toUpper]
  rw [if_pos h]

theorem toUpper_toUpper (c : Char) : c.toUpper.toUpper = c.toUpper := by
  by_cases h : c.toNat ≥ 97 ∧ c.toNat ≤ 122
  · rw [toUpper_of_lower h]
    apply toUpper_eq_self
    rw [toNat_ofNat_of_lt (by omega)]
    omega
  · rw [toUpper_eq_self h, toUpper_eq_self h]

theorem toNat_bounds_of_isDigit {c : Char} (h : c.isDigit = true) :
    48 ≤ c.toNat ∧ c.toNat ≤ 57 := by
  simp only [Char.isDigit, Bool.and_eq_true, decide_eq_true_eq] at h
  obtain ⟨h1, h2⟩ := h
  rw [ge_iff_le] at h1
  rw [UInt32.le_def, BitVec.le_def] at h1 h2
  exact ⟨h1, h2⟩

theorem toUpper_of_isDigit {c : Char} (h : c.isDigit = true) : c.toUpper = c := by
  have hb := toNat_bounds_of_isDigit h
  apply toUpper_eq_self
  omega

theorem jsWs_of_isDigit {c : Char} (h : c.isDigit = true) : jsWs c = false := by
  have hb := toNat_bounds_of_isDigit h
  simp only [jsWs, Bool.or_eq_false_iff, decide_eq_false_iff_not]
  refine ⟨⟨⟨?_, ?_⟩, ?_⟩, ?_⟩ <;> rintro rfl <;> simp at hb

theorem mem_data_jsTrim {c : Char} {s : String} (h : c ∈ (jsTrim s).data) : c ∈ s.data := by
  simp only [jsTrim, data_mk] at h
  rw [List.mem_reverse] at h
  have h2 := (List.dropWhile_sublist jsWs).subset h
  rw [List.mem_reverse] at h2
  exact (List.dropWhile_sublist jsWs).subset h2

theorem mem_data_dropSuffixS {c : Char} {s suf : String}
    (h : c ∈ (dropSuffixS s suf).data) : c ∈ s.data := by
  unfold dropSuffixS at h
  split at h
  · rw [data_mk] at h
    exact (List.take_sublist _ _).subset h
  · exact h

theorem mem_data_stripXTAI {c : Char} {s : String} (h : c ∈ (stripXTAI s).data) :
    c ∈ s.data :=
  mem_data_dropSuffixS h

theorem mem_data_stripTwSuffix {c : Char} {s : String} (h : c ∈ (stripTwSuffix s).data) :
    c ∈ s.data := by
  unfold stripTwSuffix at h
  split at h <;> exact mem_data_dropSuffixS h

theorem toUpper_of_mem_canonBase {s : String} {c : Char} (h : c ∈ (canonBase s).data) :
    c.toUpper = c := by
  have h1 : c ∈ (jsUpper s).data :=
    mem_data_jsTrim (mem_data_stripXTAI (mem_data_stripTwSuffix h))
  rw [jsUpper, data_mk, List.mem_map] at h1
  obtain ⟨a, -, rfl⟩ := h1
  exact toUpper_toUpper a

theorem jsUpper_eq_self {s : String} (h : ∀ c ∈ s.data, c.toUpper = c) : jsUpper s = s := by
  cases s with
  | mk d =>
    unfold jsUpper
    congr 1
    rw [show d.map Char.toUpper = d.map id from List.map_congr_left (by simpa using h),
      List.map_id]

theorem dropWhile_jsWs_eq_self {l : List Char} (h : ∀ c ∈ l, jsWs c = false) :
    l.dropWhile jsWs = l := by
  cases l with
  | nil => rfl
  | cons a t => rw [List.dropWhile_cons, if_neg (by simp [h a (List.mem_cons_self a t)])]

theorem jsTrim_eq_self {s : String} (h : ∀ c ∈ s.data, jsWs c = false) : jsTrim s = s := by
  cases s with
  | mk d =>
    unfold jsTrim
    congr 1
    rw [dropWhile_jsWs_eq_self h,
      dropWhile_jsWs_eq_self (fun c hc => h c (List.mem_reverse.mp hc)),
      List.reverse_reverse]

theorem endsWithS_iff {s suf : String} : endsWithS s suf = true ↔ suf.data <:+ s.data := by
  simp [endsWithS]

theorem endsWithS_false_of_getLast {s suf : String} (c1 c2 : Char)
    (hsuf : suf.data.getLast? = some c1) (hs : s.data.getLast? = some c2) (hne : c1 ≠ c2) :
    endsWithS s suf = false := by
  rw [Bool.eq_false_iff]
  intro h
  obtain ⟨t, ht⟩ := endsWithS_iff.mp h
  rw [← ht, List.getLast?_append, hsuf] at hs
  exact hne (by simpa using hs)

theorem mem_of_containsS {s sub : String} (h : containsS s sub = true) {c : Char}
    (hc : c ∈ sub.data) : c ∈ s.data := by
  simp only [containsS, List.any_eq_true] at h
  obtain ⟨t, ht, hpre⟩ := h
  rw [List.mem_tails] at ht
  rw [List.isPrefixOf_iff_prefix] at hpre
  exact ht.subset (hpre.subset hc)

theorem isDigits4to6_parts {s : String} (h : isDigits4to6 s = true) :
    (4 ≤ s.data.length ∧ s.data.length ≤ 6) ∧ ∀ c ∈ s.data, c.isDigit = true := by
  simp only [isDigits4to6, Bool.and_eq_true, decide_eq_true_eq, List.all_eq_true] at h
  exact ⟨h.1, h.2⟩

theorem dropSuffixS_of_neg {s suf : String} (h : endsWithS s suf = false) :
    dropSuffixS s suf = s := by
  unfold dropSuffixS
  rw [h]
  simp

theorem stripXTAI_of_neg {s : String} (h : endsWithS s ":XTAI" = false) :
    stripXTAI s = s :=
  dropSuffixS_of_neg h

theorem stripTwSuffix_of_neg {s : String} (h3 : endsWithS s ".TWO" = false)
    (h4 : endsWithS s ".TW" = false) : stripTwSuffix s = s := by
  unfold stripTwSuffix
  rw [h3]
  simp only [Bool.false_eq_true, if_false]
  exact dropSuffixS_of_neg h4

/-- `canonBase` is a fixed point on strings that are already uppercase,
trimmed, and free of a trailing market qualifier. -/
theorem canonBase_eq_self {b : String} (hupper : jsUpper b = b) (h1 : jsTrim b = b)
    (h2 : endsWithS b ":XTAI" = false) (h3 : endsWithS b ".TWO" = false)
    (h4 : endsWithS b ".TW" = false) : canonBase b = b := by
  unfold canonBase
  rw [hupper, h1, stripXTAI_of_neg h2, stripTwSuffix_of_neg h3 h4]

/-! ## C3: totality and idempotence of `canonicalSymbol` -/

/-- [C3, counterexample] `canonicalSymbol` is not idempotent as claimed: the
anchored suffix replace removes only one market qualifier, so on
`"ABC.TW.TW"` the first pass yields `"ABC.TW"` and the second strips again to
`"ABC"`. -/
theorem canonicalSymbol_not_idempotent_cex :
    canonicalSymbol (canonicalSymbol "ABC.TW.TW") ≠ canonicalSymbol "ABC.TW.TW" := by
  decide

/-- [C3, amended] `canonicalSymbol` is total (it is a total function of its
input, defined on every string including `""`), and it is idempotent on every
input whose computed base is clean — i.e. the base left after stripping one
trailing `:XTAI` and one trailing `.TW`/`.TWO` carries no surrounding
whitespace and does not itself end in another market qualifier. Inputs with
stacked qualifiers (e.g. `"ABC.TW.TW"`) escape idempotence. -/
theorem canonicalSymbol_total_idem (s : String)
    (h1 : jsTrim (canonBase s) = canonBase s)
    (h2 : endsWithS (canonBase s) ":XTAI" = false)
    (h3 : endsWithS (canonBase s) ".TWO" = false)
    (h4 : endsWithS (canonBase s) ".TW" = false) :
    canonicalSymbol (canonicalSymbol s) = canonicalSymbol s := by
  have hupper : jsUpper (canonBase s) = canonBase s :=
    jsUpper_eq_self (fun c hc => toUpper_of_mem_canonBase hc)
  by_cases hd : isDigits4to6 (canonBase s) = true
  · have hcs : canonicalSymbol s = canonBase s ++ ".TW" := by
      unfold canonicalSymbol
      rw [if_pos hd]
    obtain ⟨hlen, hdig⟩ := isDigits4to6_parts hd
    set b := canonBase s with hb
    have hdata : (b ++ ".TW").data = b.data ++ ['.', 'T', 'W'] := by
      rw [String.data_append]
    have hup2 : jsUpper (b ++ ".TW") = b ++ ".TW" := by
      apply jsUpper_eq_self
      intro c hc
      rw [hdata] at hc
      rcases List.mem_append.mp hc with hc | hc
      · exact toUpper_of_isDigit (hdig c hc)
      · have hc3 : c = '.' ∨ c = 'T' ∨ c = 'W' := by simpa using hc
        rcases hc3 with rfl | rfl | rfl <;> decide
    have htr : jsTrim (b ++ ".TW") = b ++ ".TW" := by
      apply jsTrim_eq_self
      intro c hc
      rw [hdata] at hc
      rcases List.mem_append.mp hc with hc | hc
      · exact jsWs_of_isDigit (hdig c hc)
      · have hc3 : c = '.' ∨ c = 'T' ∨ c = 'W' := by simpa using hc
        rcases hc3 with rfl | rfl | rfl <;> decide
    have hlast : (b ++ ".TW").data.getLast? = some 'W' := by
      rw [hdata, List.getLast?_append]
      rfl
    have hx : endsWithS (b ++ ".TW") ":XTAI" = false :=
      endsWithS_false_of_getLast 'I' 'W' rfl hlast (by decide)
    have htwo : endsWithS (b ++ ".TW") ".TWO" = false :=
      endsWithS_false_of_getLast 'O' 'W' rfl hlast (by decide)
    have hends : endsWithS (b ++ ".TW") ".TW" = true := by
      rw [endsWithS_iff, String.data_append]
      exact List.suffix_append _ _
    have hCB : canonBase (b ++ ".TW") = b := by
      unfold canonBase
      rw [hup2, htr, stripXTAI_of_neg hx]
      unfold stripTwSuffix
      rw [htwo]
      simp only [Bool.false_eq_true, if_false]
      unfold dropSuffixS
      rw [hends]
      simp only [if_true]
      have hX : (b ++ ".TW").data.take ((b ++ ".TW").data.length - ".TW".data.length)
          = b.data := by
        rw [hdata, show (".TW".data.length) = 3 from rfl,
          show (b.data ++ ['.', 'T', 'W']).length = b.data.length + 3 by simp,
          Nat.add_sub_cancel]
        exact List.take_left b.data ['.', 'T', 'W']
      rw [hX]
    rw [hcs]
    unfold canonicalSymbol
    rw [hCB, if_pos hd]
  · have hcs : canonicalSymbol s = canonBase s := by
      unfold canonicalSymbol
      rw [if_neg hd]
    rw [hcs]
    have hCB : canonBase (canonBase s) = canonBase s :=
      canonBase_eq_self hupper h1 h2 h3 h4
    unfold canonicalSymbol
    rw [hCB, if_neg hd]

/-- [C3, witness] The amended idempotence applied at the concrete inputs
`"AAPL"` and `"2330:XTAI"`. -/
theorem canonicalSymbol_total_idem_witness :
    canonicalSymbol (canonicalSymbol "AAPL") = canonicalSymbol "AAPL" ∧
    canonicalSymbol (canonicalSymbol "2330:XTAI") = canonicalSymbol "2330:XTAI" :=
  ⟨canonicalSymbol_total_idem "AAPL" (by decide) (by decide) (by decide) (by decide),
   canonicalSymbol_total_idem "2330:XTAI" (by decide) (by decide) (by decide) (by decide)⟩

/-! ## C4: Taiwan classification vs canonical suffix -/

/-- [C4, counterexample] `"ABC.TW"` is classified Taiwan by `detectMarket`
(it ends in `.TW`), yet its canonical form `"ABC"` does not carry the Taiwan
suffix: `canonicalSymbol` only appends `.TW` for 4–6-digit bases. -/
theorem canonical_tw_suffix_cex :
    (detectMarket "ABC.TW").1 = Market.TW ∧
    endsWithS (canonicalSymbol "ABC.TW") ".TW" = false := by
  constructor <;> decide

/-- [C4, amended] For every input that `detectMarket` classifies as Taiwan
*and* whose canonical base consists of 4–6 ASCII digits (the numeric Taiwan
codes), the canonical form ends with `".TW"` and carries no provider
qualifier `":XTAI"`. Taiwan-classified inputs with a non-numeric base (e.g.
`"ABC.TW"`) keep a bare base instead. -/
theorem canonical_tw_suffix (s : String) (_hTW : (detectMarket s).1 = Market.TW)
    (hd : isDigits4to6 (canonBase s) = true) :
    endsWithS (canonicalSymbol s) ".TW" = true ∧
    containsS (canonicalSymbol s) ":XTAI" = false := by
  have hcs : canonicalSymbol s = canonBase s ++ ".TW" := by
    unfold canonicalSymbol
    rw [if_pos hd]
  obtain ⟨hlen, hdig⟩ := isDigits4to6_parts hd
  constructor
  · rw [hcs, endsWithS_iff, String.data_append]
    exact List.suffix_append _ _
  · rw [hcs, Bool.eq_false_iff]
    intro hc
    have hmem : ':' ∈ (canonBase s ++ ".TW").data := mem_of_containsS hc (by decide)
    rw [String.data_append] at hmem
    rcases List.mem_append.mp hmem with hm | hm
    · have := hdig ':' hm
      simp at this
    · simp at hm

/-- [C4, witness] The amended statement applied at `"2330"` and
`"2330:XTAI"`. -/
theorem canonical_tw_suffix_witness :
    (endsWithS (canonicalSymbol "2330") ".TW" = true ∧
      containsS (canonicalSymbol "2330") ":XTAI" = false) ∧
    (endsWithS (canonicalSymbol "2330:XTAI") ".TW" = true ∧
      containsS (canonicalSymbol "2330:XTAI") ":XTAI" = false) :=
  ⟨canonical_tw_suffix "2330" (by decide) (by decide),
   canonical_tw_suffix "2330:XTAI" (by decide) (by decide)⟩

/-! ## C5: RSI range and defaults -/

/-- [C5] For every closes list and period, `calcRSI` stays within `[0, 100]`;
it returns exactly `50` whenever the history is shorter than `period + 1`,
and exactly `100` whenever there is enough history and the average loss over
the first `period` deltas is exactly `0`. -/
theorem calcRSI_range_defaults {F : Type} [LinearOrderedField F] (closes : List F)
    (period : ℕ) :
    (0 ≤ calcRSI closes period ∧ calcRSI closes period ≤ 100) ∧
    (closes.length < period + 1 → calcRSI closes period = 50) ∧
    (¬closes.length < period + 1 → rsiAvgLoss closes period = 0 →
      calcRSI closes period = 100) := by
  unfold calcRSI
  by_cases h : closes.length < period + 1
  · rw [if_pos h]
    exact ⟨⟨by norm_num, by norm_num⟩, fun _ => rfl, fun hn => absurd h hn⟩
  · rw [if_neg h]
    by_cases hal : rsiAvgLoss closes period = 0
    · rw [if_pos hal]
      exact ⟨⟨by norm_num, by norm_num⟩, fun hlt => absurd hlt h, fun _ _ => rfl⟩
    · rw [if_neg hal]
      have hal0 : 0 ≤ rsiAvgLoss closes period := by
        unfold rsiAvgLoss
        apply div_nonneg _ (Nat.cast_nonneg period)
        apply List.sum_nonneg
        intro x hx
        rw [List.mem_map] at hx
        obtain ⟨d, -, rfl⟩ := hx
        split
        · exact le_rfl
        · rename_i hd
          linarith [not_lt.mp hd]
      have hag0 : 0 ≤ rsiAvgGain closes period := by
        unfold rsiAvgGain
        apply div_nonneg _ (Nat.cast_nonneg period)
        apply List.sum_nonneg
        intro x hx
        rw [List.mem_map] at hx
        obtain ⟨d, -, rfl⟩ := hx
        split
        · rename_i hd
          linarith
        · exact le_rfl
      have halpos : 0 < rsiAvgLoss closes period := lt_of_le_of_ne hal0 (Ne.symm hal)
      have hx0 : 0 ≤ rsiAvgGain closes period / rsiAvgLoss closes period :=
        div_nonneg hag0 hal0
      have h1x : (1 : F) ≤ 1 + rsiAvgGain closes period / rsiAvgLoss closes period := by
        linarith
      have hfrac0 : 0 ≤ (100 : F) / (1 + rsiAvgGain closes period / rsiAvgLoss closes period) :=
        div_nonneg (by norm_num) (by linarith)
      have hfrac100 :
          (100 : F) / (1 + rsiAvgGain closes period / rsiAvgLoss closes period) ≤ 100 :=
        div_le_self (by norm_num) h1x
      exact ⟨⟨by linarith, by linarith⟩, fun hlt => absurd hlt h, fun _ hc => absurd hc hal⟩

/-- [C5, witness] `calcRSI` over `ℚ`: the empty history yields `50`; a
strictly falling history (all deltas are gains) with period 2 yields `100`. -/
theorem calcRSI_range_defaults_witness :
    calcRSI ([] : List ℚ) 14 = 50 ∧ calcRSI ([3, 2, 1] : List ℚ) 2 = 100 :=
  ⟨(calcRSI_range_defaults ([] : List ℚ) 14).2.1 (by decide),
   (calcRSI_range_defaults ([3, 2, 1] : List ℚ) 2).2.2 (by decide)
     (by norm_num [rsiAvgLoss, rsiDeltas, List.range_succ])⟩

/-! ## C6: beta defaults and ratio -/

/-- Arithmetic mean of a list. -/
def listMean {F : Type} [LinearOrderedField F] (l : List F) : F :=
  l.sum / l.length

/-- Covariance of the paired daily returns of `calcBeta` (spec-side
definition, normalized by the number of paired samples). -/
def pairedCovariance {F : Type} [LinearOrderedField F] (sc bc : List F) (days : ℕ) : F :=
  let sr := betaSr sc bc days
  let br := betaBr sc bc days
  ((sr.zip br).map (fun p => (p.1 - listMean sr) * (p.2 - listMean br))).sum / sr.length

/-- Variance of the paired benchmark returns of `calcBeta` (spec-side
definition, normalized). -/
def benchVariance {F : Type} [LinearOrderedField F] (sc bc : List F) (days : ℕ) : F :=
  let br := betaBr sc bc days
  (br.map (fun r => (r - listMean br) ^ 2)).sum / br.length

theorem betaSr_length_le {F : Type} [LinearOrderedField F] (sc bc : List F) (days : ℕ) :
    (betaSr sc bc days).length ≤ min days (min (sc.length - 1) (bc.length - 1)) := by
  unfold betaSr betaIdx
  rw [List.length_map]
  calc (List.filter _ _).length ≤ (List.range (min days (min (sc.length - 1) (bc.length - 1)))).length :=
        List.length_filter_le _ _
    _ = _ := List.length_range _

theorem betaBr_length_eq {F : Type} [LinearOrderedField F] (sc bc : List F) (days : ℕ) :
    (betaBr sc bc days).length = (betaSr sc bc days).length := by
  unfold betaSr betaBr
  rw [List.length_map, List.length_map]

theorem calcBeta_eq_one_of_short {F : Type} [LinearOrderedField F] {sc bc : List F}
    {days : ℕ} (hk : (betaSr sc bc days).length < 10) : calcBeta sc bc days = 1 := by
  simp only [calcBeta]
  split_ifs <;> rfl

theorem calcBeta_eq_one_of_var_zero {F : Type} [LinearOrderedField F] {sc bc : List F}
    {days : ℕ} (hv : benchVariance sc bc days = 0) : calcBeta sc bc days = 1 := by
  simp only [benchVariance, listMean] at hv
  simp only [calcBeta]
  split_ifs with h1 h2 h3 <;> try rfl
  exfalso
  rcases div_eq_zero_iff.mp hv with hs | hlen
  · rw [hs] at h3
    exact lt_irrefl 0 h3
  · have hlen0 : (betaBr sc bc days).length = 0 := by exact_mod_cast hlen
    have hnil : betaBr sc bc days = [] := List.length_eq_zero.mp hlen0
    rw [hnil] at h3
    simp at h3

theorem benchVariance_replicate {F : Type} [LinearOrderedField F] (sc : List F)
    (days m : ℕ) (v : F) : benchVariance sc (List.replicate m v) days = 0 := by
  have hbr : ∀ r ∈ betaBr sc (List.replicate m v) days, r = 0 := by
    intro r hr
    unfold betaBr betaIdx at hr
    rw [List.mem_map] at hr
    obtain ⟨i, hi, rfl⟩ := hr
    rw [List.mem_filter] at hi
    obtain ⟨-, hcond⟩ := hi
    simp only [Bool.and_eq_true, decide_eq_true_eq] at hcond
    have hpos : 0 < (List.replicate m v).getD (i + 1) 0 := hcond.2
    have him : i + 1 < m := by
      by_contra hge
      rw [List.getD_eq_getElem?_getD, List.getElem?_replicate, if_neg (by omega)] at hpos
      simp at hpos
    have h1 : (List.replicate m v).getD (i + 1) 0 = v := by
      rw [List.getD_eq_getElem?_getD, List.getElem?_replicate, if_pos him]
      rfl
    have h0 : (List.replicate m v).getD i 0 = v := by
      rw [List.getD_eq_getElem?_getD, List.getElem?_replicate, if_pos (by omega)]
      rfl
    rw [h0, h1, sub_self, zero_div]
  simp only [benchVariance, listMean]
  have hz : ((betaBr sc (List.replicate m v) days).map
      (fun r => (r - (betaBr sc (List.replicate m v) days).sum /
        ((betaBr sc (List.replicate m v) days).length : F)) ^ 2)).sum = 0 := by
    apply List.sum_eq_zero
    intro x hx
    rw [List.mem_map] at hx
    obtain ⟨r, hr, rfl⟩ := hx
    rw [hbr r hr, List.sum_eq_zero hbr, zero_div, sub_zero]
    norm_num
  rw [hz, zero_div]

/-- [C6] `calcBeta` returns exactly `1` whenever fewer than 10 paired return
samples exist, or the benchmark variance is `0` (in particular for every
constant benchmark series); otherwise it returns the covariance of the paired
daily returns divided by the benchmark variance. -/
theorem calcBeta_defaults {F : Type} [LinearOrderedField F] (sc bc : List F) (days : ℕ) :
    ((betaSr sc bc days).length < 10 → calcBeta sc bc days = 1) ∧
    (benchVariance sc bc days = 0 → calcBeta sc bc days = 1) ∧
    (10 ≤ (betaSr sc bc days).length → benchVariance sc bc days ≠ 0 →
      calcBeta sc bc days = pairedCovariance sc bc days / benchVariance sc bc days) ∧
    (∀ (m : ℕ) (v : F), calcBeta sc (List.replicate m v) days = 1) := by
  refine ⟨fun hk => calcBeta_eq_one_of_short hk, fun hv => calcBeta_eq_one_of_var_zero hv,
    ?_, fun m v => calcBeta_eq_one_of_var_zero (benchVariance_replicate sc days m v)⟩
  intro hk hv
  have hle := betaSr_length_le sc bc days
  have hbrlen := betaBr_length_eq sc bc days
  have hk0 : ((betaSr sc bc days).length : F) ≠ 0 := Nat.cast_ne_zero.mpr (by omega)
  simp only [benchVariance, pairedCovariance, listMean] at hv ⊢
  simp only [calcBeta]
  split_ifs with h1 h2 h3
  · omega
  · omega
  · rw [hbrlen, div_div_div_comm, div_self hk0, div_one]
  · exfalso
    apply hv
    have hnonneg : 0 ≤ ((betaBr sc bc days).map
        (fun r => (r - (betaBr sc bc days).sum / ((betaBr sc bc days).length : F)) ^ 2)).sum := by
      apply List.sum_nonneg
      intro x hx
      rw [List.mem_map] at hx
      obtain ⟨r, -, rfl⟩ := hx
      positivity
    have hvb0 : ((betaBr sc bc days).map
        (fun r => (r - (betaBr sc bc days).sum / ((betaBr sc bc days).length : F)) ^ 2)).sum = 0 :=
      le_antisymm (not_lt.mp h3) hnonneg
    rw [hvb0, zero_div]

/-- [C6, witness] The defaults at concrete inputs: empty series (no paired
samples), a constant benchmark, and the covariance/variance ratio on a
12-point alternating series. -/
theorem calcBeta_defaults_witness :
    calcBeta ([] : List ℚ) [] 60 = 1 ∧
    calcBeta ([1, 2, 3] : List ℚ) (List.replicate 3 (5 : ℚ)) 60 = 1 ∧
    calcBeta ([1, 2, 1, 2, 1, 2, 1, 2, 1, 2, 1, 2] : List ℚ)
        [1, 2, 1, 2, 1, 2, 1, 2, 1, 2, 1, 2] 60 =
      pairedCovariance ([1, 2, 1, 2, 1, 2, 1, 2, 1, 2, 1, 2] : List ℚ)
        [1, 2, 1, 2, 1, 2, 1, 2, 1, 2, 1, 2] 60 /
      benchVariance ([1, 2, 1, 2, 1, 2, 1, 2, 1, 2, 1, 2] : List ℚ)
        [1, 2, 1, 2, 1, 2, 1, 2, 1, 2, 1, 2] 60 :=
  ⟨(calcBeta_defaults ([] : List ℚ) [] 60).1 (by decide),
   (calcBeta_defaults ([1, 2, 3] : List ℚ) (List.replicate 3 (5 : ℚ)) 60).2.2.2 3 5,
   (calcBeta_defaults ([1, 2, 1, 2, 1, 2, 1, 2, 1, 2, 1, 2] : List ℚ)
       [1, 2, 1, 2, 1, 2, 1, 2, 1, 2, 1, 2] 60).2.2.1 (by decide)
     (by norm_num [benchVariance, listMean, betaBr, betaIdx, List.range_succ])⟩

/-! ## C7: volatility defaults and formula -/

/-- The annualized (×√252) standard deviation of the log returns over up to
`days` periods (spec-side definition). -/
def annualizedVol {F : Type} [LinearOrderedField F] (lg sq : F → F) (closes : List F)
    (days : ℕ) : F :=
  let ret := volLogReturns lg closes days
  sq ((ret.map (fun b => (b - listMean ret) ^ 2)).sum / ret.length) * sq 252 * 100

/-- [C7, counterexample] On 20 constant closes (19 usable return samples,
well above 5) `calcVol` still returns the neutral default `20` because of its
`closes.length < days + 1` guard, while the annualized standard deviation of
the log returns is `0`: the claim's "returns 20 exactly when fewer than 5
usable return samples exist" fails in both directions at this input. -/
theorem calcVol_claim_cex :
    calcVol Real.log Real.sqrt (List.replicate 20 (1 : ℝ)) 30 = 20 ∧
    5 ≤ (volRetIdx (List.replicate 20 (1 : ℝ)) 30).length ∧
    annualizedVol Real.log Real.sqrt (List.replicate 20 (1 : ℝ)) 30 = 0 := by
  have hidx : volRetIdx (List.replicate 20 (1 : ℝ)) 30 = List.range 19 := by
    unfold volRetIdx
    rw [show min 30 ((List.replicate 20 (1 : ℝ)).length - 1) = 19 by simp]
    apply List.filter_eq_self.mpr
    intro i hi
    rw [List.mem_range] at hi
    rw [List.getD_eq_getElem?_getD, List.getElem?_replicate, if_pos (by omega)]
    rw [decide_eq_true_eq]
    norm_num
  refine ⟨?_, ?_, ?_⟩
  · simp only [calcVol]
    rw [if_pos (by simp)]
  · rw [hidx, List.length_range]
    norm_num
  · have hret : volLogReturns Real.log (List.replicate 20 (1 : ℝ)) 30 =
        List.replicate 19 0 := by
      unfold volLogReturns
      rw [hidx]
      apply List.eq_replicate_iff.mpr
      refine ⟨by simp, ?_⟩
      intro b hb
      rw [List.mem_map] at hb
      obtain ⟨i, hi, rfl⟩ := hb
      rw [List.mem_range] at hi
      rw [List.getD_eq_getElem?_getD, List.getElem?_replicate, if_pos (by omega),
        List.getD_eq_getElem?_getD, List.getElem?_replicate, if_pos (by omega)]
      simp [Real.log_one]
    simp only [annualizedVol, listMean]
    rw [hret]
    simp [Real.sqrt_zero]

/-- [C7, amended] `calcVol` returns the neutral default `20` whenever fewer
than 5 usable return samples exist *or* the history is shorter than
`days + 1` closes; with at least `days + 1` closes and at least 5 usable
samples it returns the annualized (×√252) standard deviation of the log
returns. -/
theorem calcVol_spec {F : Type} [LinearOrderedField F] (lg sq : F → F) (closes : List F)
    (days : ℕ) :
    ((volRetIdx closes days).length < 5 ∨ closes.length < days + 1 →
      calcVol lg sq closes days = 20) ∧
    (days + 1 ≤ closes.length → 5 ≤ (volRetIdx closes days).length →
      calcVol lg sq closes days = annualizedVol lg sq closes days) := by
  have hlen : (volLogReturns lg closes days).length = (volRetIdx closes days).length := by
    unfold volLogReturns
    rw [List.length_map]
  constructor
  · intro h
    simp only [calcVol]
    split_ifs with h1 h2
    · rfl
    · rfl
    · rw [hlen] at h2
      exfalso
      rcases h with h | h
      · omega
      · omega
  · intro h1 h2
    simp only [calcVol, annualizedVol, listMean]
    rw [if_neg (by omega), if_neg (by rw [hlen]; omega)]

/-- [C7, witness] The amended statement at `ℚ` (with `Math.log`/`Math.sqrt`
taken as `id`): an empty history yields `20`; 31 constant closes take the
formula branch. -/
theorem calcVol_spec_witness :
    calcVol (id : ℚ → ℚ) id [] 30 = 20 ∧
    calcVol (id : ℚ → ℚ) id (List.replicate 31 1) 30 =
      annualizedVol (id : ℚ → ℚ) id (List.replicate 31 1) 30 :=
  ⟨(calcVol_spec (id : ℚ → ℚ) id [] 30).1 (Or.inl (by decide)),
   (calcVol_spec (id : ℚ → ℚ) id (List.replicate 31 1) 30).2 (by decide) (by decide)⟩

/-! ## C10: falsy provider fields collapse to neutral defaults -/

/-- [C10] In the yfinance response mapping, a provider-supplied `0` for
`rsi`, `beta` or `volatility30d` is replaced by the neutral default (`50`,
`1.0`, `20` respectively), and the resulting record is identical to the one
produced when the field is missing altogether: a genuine zero is
indistinguishable from an absent value at the public interface. -/
theorem yfinance_falsy_neutral_defaults (sym : String) (d : YfRaw) (he : d.error = false) :
    yfMapOne [{ d with rsi := some 0 }] 0 sym = yfMapOne [{ d with rsi := none }] 0 sym ∧
    yfMapOne [{ d with beta := some 0 }] 0 sym = yfMapOne [{ d with beta := none }] 0 sym ∧
    yfMapOne [{ d with volatility30d := some 0 }] 0 sym =
      yfMapOne [{ d with volatility30d := none }] 0 sym ∧
    (yfMapOne [{ d with rsi := some 0 }] 0 sym).rsi = 50 ∧
    (yfMapOne [{ d with beta := some 0 }] 0 sym).beta = 1 ∧
    (yfMapOne [{ d with volatility30d := some 0 }] 0 sym).volatility30d = 20 := by
  refine ⟨?_, ?_, ?_, ?_, ?_, ?_⟩ <;> simp [yfMapOne, jsOrQ, he]

/-- A yfinance response element with every optional field absent. -/
def yfSample : YfRaw :=
  { error := false, yname := none, price := none, prevClose := none, ychange := none,
    changePct := none, high52w := none, low52w := none, ma50 := none, ma200 := none,
    rsi := none, pe := none, divYield := none, marketCap := none, volume := none,
    beta := none, volatility30d := none, sector := none, volCategory := none,
    sparkline := none }

/-- [C10, witness] The collapse at the concrete element `yfSample` and symbol
`"AAPL"`. -/
theorem yfinance_falsy_neutral_defaults_witness :
    yfMapOne [{ yfSample with rsi := some 0 }] 0 "AAPL" =
      yfMapOne [{ yfSample with rsi := none }] 0 "AAPL" ∧
    yfMapOne [{ yfSample with beta := some 0 }] 0 "AAPL" =
      yfMapOne [{ yfSample with beta := none }] 0 "AAPL" ∧
    yfMapOne [{ yfSample with volatility30d := some 0 }] 0 "AAPL" =
      yfMapOne [{ yfSample with volatility30d := none }] 0 "AAPL" ∧
    (yfMapOne [{ yfSample with rsi := some 0 }] 0 "AAPL").rsi = 50 ∧
    (yfMapOne [{ yfSample with beta := some 0 }] 0 "AAPL").beta = 1 ∧
    (yfMapOne [{ yfSample with volatility30d := some 0 }] 0 "AAPL").volatility30d = 20 :=
  yfinance_falsy_neutral_defaults "AAPL" yfSample rfl

/-! ## C8/C9: scheduler structure -/

/-- Size-5 chunking of the symbol list (spec-side). -/
def chunks5 (l : List String) : List (List String) :=
  if h : l = [] then [] else l.take BATCH_SIZE :: chunks5 (l.drop BATCH_SIZE)
termination_by l.length
decreasing_by
  simp only [BATCH_SIZE, List.length_drop]
  have : l.length ≠ 0 := fun h0 => h (List.eq_nil_of_length_eq_zero h0)
  omega

/-- One `fetchBatch` per chunk, a 3s pause between consecutive chunks
(spec-side). -/
def fetchTrace : List (List String) → List SchedAction
  | [] => []
  | [b] => [SchedAction.fetchBatch b]
  | b :: rest => SchedAction.fetchBatch b :: SchedAction.pause 3000 :: fetchTrace rest

/-- Is an action a provider batch call? -/
def isFetch : SchedAction → Bool
  | SchedAction.fetchBatch _ => true
  | _ => false

/-- Number of provider batch calls in a trace. -/
def countFetches (tr : List SchedAction) : ℕ :=
  (tr.filter isFetch).length

theorem chunks5_nil : chunks5 [] = [] := by
  unfold chunks5
  rfl

theorem chunks5_cons {l : List String} (h : l ≠ []) :
    chunks5 l = l.take BATCH_SIZE :: chunks5 (l.drop BATCH_SIZE) := by
  rw [chunks5]
  exact dif_neg h

theorem chunks5_eq_nil {l : List String} : chunks5 l = [] ↔ l = [] := by
  constructor
  · intro h
    by_contra hne
    rw [chunks5_cons hne] at h
    exact List.cons_ne_nil _ _ h
  · rintro rfl
    exact chunks5_nil

theorem runBatches_trace_aux (E : SchedEnv) (symbols : List String) :
    ∀ n i, symbols.length - i ≤ n →
      (runBatches E symbols i).1 = fetchTrace (chunks5 (symbols.drop i)) := by
  have hB : BATCH_SIZE = 5 := rfl
  intro n
  induction n with
  | zero =>
    intro i hi
    rw [runBatches, dif_neg (by omega), List.drop_eq_nil_of_le (by omega), chunks5_nil]
    rfl
  | succ n ih =>
    intro i hi
    by_cases hlt : i < symbols.length
    · rw [runBatches, dif_pos hlt]
      have hne : symbols.drop i ≠ [] := by
        intro h0
        have := congrArg List.length h0
        rw [List.length_drop] at this
        simp at this
        omega
      rw [chunks5_cons hne]
      have hdd : (symbols.drop i).drop BATCH_SIZE = symbols.drop (i + BATCH_SIZE) := by
        rw [List.drop_drop, Nat.add_comm]
      rw [hdd]
      have hrest : (runBatches E symbols (i + BATCH_SIZE)).1 =
          fetchTrace (chunks5 (symbols.drop (i + BATCH_SIZE))) := ih _ (by omega)
      by_cases h2 : i + BATCH_SIZE < symbols.length
      · have hne2 : symbols.drop (i + BATCH_SIZE) ≠ [] := by
          intro h0
          have := congrArg List.length h0
          rw [List.length_drop] at this
          simp at this
          omega
        have hcne : chunks5 (symbols.drop (i + BATCH_SIZE)) ≠ [] := by
          rw [Ne, chunks5_eq_nil]
          exact hne2
        obtain ⟨c, cs, hcc⟩ := List.exists_cons_of_ne_nil hcne
        rw [hcc]
        simp only [fetchTrace, if_pos h2]
        rw [hrest, hcc]
        rfl
      · have hnil2 : symbols.drop (i + BATCH_SIZE) = [] :=
          List.drop_eq_nil_of_le (by omega)
        rw [hnil2, chunks5_nil]
        simp only [fetchTrace, if_neg h2]
        rw [hrest, hnil2, chunks5_nil]
        rfl
    · rw [runBatches, dif_neg hlt, List.drop_eq_nil_of_le (by omega), chunks5_nil]
      rfl

theorem runBatches_trace (E : SchedEnv) (symbols : List String) :
    (runBatches E symbols 0).1 = fetchTrace (chunks5 symbols) := by
  have h := runBatches_trace_aux E symbols symbols.length 0 (by omega)
  simpa using h

theorem chunks5_flatten : ∀ n (l : List String), l.length ≤ n → (chunks5 l).flatten = l := by
  intro n
  induction n with
  | zero =>
    intro l hl
    have : l = [] := List.eq_nil_of_length_eq_zero (by omega)
    rw [this, chunks5_nil]
    rfl
  | succ n ih =>
    intro l hl
    by_cases hne : l = []
    · rw [hne, chunks5_nil]
      rfl
    · rw [chunks5_cons hne, List.flatten_cons]
      have hlen : l.length ≠ 0 := fun h0 => hne (List.eq_nil_of_length_eq_zero h0)
      have hB : BATCH_SIZE = 5 := rfl
      rw [ih (l.drop BATCH_SIZE) (by rw [List.length_drop]; omega)]
      exact List.take_append_drop _ _

theorem chunks5_mem : ∀ n (l : List String), l.length ≤ n →
    ∀ b ∈ chunks5 l, b.length ≤ 5 ∧ b ≠ [] := by
  intro n
  induction n with
  | zero =>
    intro l hl b hb
    have : l = [] := List.eq_nil_of_length_eq_zero (by omega)
    rw [this, chunks5_nil] at hb
    simp at hb
  | succ n ih =>
    intro l hl b hb
    by_cases hne : l = []
    · rw [hne, chunks5_nil] at hb
      simp at hb
    · rw [chunks5_cons hne] at hb
      have hB : BATCH_SIZE = 5 := rfl
      have hlen : l.length ≠ 0 := fun h0 => hne (List.eq_nil_of_length_eq_zero h0)
      rcases List.mem_cons.mp hb with rfl | hb
      · constructor
        · rw [hB, List.length_take]
          omega
        · intro h0
          have := congrArg List.length h0
          rw [List.length_take, hB] at this
          simp only [List.length_nil] at this
          omega
      · exact ih (l.drop BATCH_SIZE) (by rw [List.length_drop]; omega) b hb

theorem countFetches_fetchTrace (bs : List (List String)) :
    countFetches (fetchTrace bs) = bs.length := by
  induction bs with
  | nil => rfl
  | cons b rest ih =>
    cases rest with
    | nil => rfl
    | cons c cs =>
      show countFetches
        (SchedAction.fetchBatch b :: SchedAction.pause 3000 :: fetchTrace (c :: cs)) = _
      simp only [countFetches, List.filter_cons, isFetch, if_true, if_false,
        List.length_cons] at ih ⊢
      simp only [Bool.false_eq_true, if_false, if_true, List.length_cons]
      omega

/-- [C8] `runDailyUpdate` issues exactly one `batchGetFullData` call per
consecutive size-5 chunk of its symbol list, with a fixed 3000 ms pause
between consecutive batches and one durable-cache flush at the very end; the
chunks partition the input in order, and a 12-symbol input makes exactly 3
batch calls. -/
theorem runDailyUpdate_batch_structure (E : SchedEnv) (symbols : List String) :
    (runDailyUpdate E symbols false).2.1 =
      fetchTrace (chunks5 symbols) ++ [SchedAction.flush] ∧
    (chunks5 symbols).flatten = symbols ∧
    (∀ b ∈ chunks5 symbols, b.length ≤ 5 ∧ b ≠ []) ∧
    (symbols.length = 12 → countFetches (runDailyUpdate E symbols false).2.1 = 3) := by
  have htrace : (runDailyUpdate E symbols false).2.1 =
      fetchTrace (chunks5 symbols) ++ [SchedAction.flush] := by
    simp only [runDailyUpdate, Bool.false_eq_true, if_false]
    rw [runBatches_trace]
  refine ⟨htrace, chunks5_flatten symbols.length symbols le_rfl,
    chunks5_mem symbols.length symbols le_rfl, ?_⟩
  intro h12
  rw [htrace]
  have happ : countFetches (fetchTrace (chunks5 symbols) ++ [SchedAction.flush]) =
      countFetches (fetchTrace (chunks5 symbols)) := by
    simp [countFetches, List.filter_append, isFetch]
  rw [happ, countFetches_fetchTrace]
  have h1 : symbols ≠ [] := by
    intro h0
    rw [h0] at h12
    simp at h12
  rw [chunks5_cons h1]
  have hd1 : (symbols.drop BATCH_SIZE).length = 7 := by
    rw [List.length_drop, h12]
    decide
  have h2 : symbols.drop BATCH_SIZE ≠ [] := by
    intro h0
    rw [h0] at hd1
    simp at hd1
  rw [chunks5_cons h2]
  have hd2 : ((symbols.drop BATCH_SIZE).drop BATCH_SIZE).length = 2 := by
    rw [List.length_drop, hd1]
    decide
  have h3 : (symbols.drop BATCH_SIZE).drop BATCH_SIZE ≠ [] := by
    intro h0
    rw [h0] at hd2
    simp at hd2
  rw [chunks5_cons h3]
  have hd3 : (((symbols.drop BATCH_SIZE).drop BATCH_SIZE).drop BATCH_SIZE).length = 0 := by
    rw [List.length_drop, hd2]
    decide
  rw [List.eq_nil_of_length_eq_zero hd3, chunks5_nil]
  rfl

/-- A provider world with nothing configured and nothing reachable. -/
def emptyEnv : Env :=
  { hasKey := false, cache := fun _ => none, tdQuotes := none, tdSeries := fun _ => [],
    benchUS := [], benchTW := [], yfAvailable := false, yfResp := none, lg := id, sq := id }

/-- The scheduler world over `emptyEnv` with no throwing batches. -/
def emptySchedEnv : SchedEnv :=
  { env := emptyEnv, batchThrows := fun _ => false, getSymbols := none }

/-- [C8, witness] 12 concrete symbols make exactly 3 provider batch calls. -/
theorem runDailyUpdate_batch_structure_witness :
    countFetches (runDailyUpdate emptySchedEnv
      ["A1", "A2", "A3", "A4", "A5", "A6", "A7", "A8", "A9", "A10", "A11", "A12"]
      false).2.1 = 3 :=
  (runDailyUpdate_batch_structure emptySchedEnv
    ["A1", "A2", "A3", "A4", "A5", "A6", "A7", "A8", "A9", "A10", "A11", "A12"]).2.2.2
    (by decide)

/-- [C9] A `runDailyUpdate` call arriving while the running flag is set is
dropped: it returns `(0, 0)` with no provider calls and does not touch the
flag. A run that does start clears the flag on completion for every
environment (including per-batch failures), and every firing of the
scheduler timer ends by rescheduling itself, leaving the flag clear — so a
failed run never halts the schedule and two scheduled runs never overlap. -/
theorem scheduler_overlap_guard (E : SchedEnv) (symbols : List String) :
    runDailyUpdate E symbols true = ((0, 0), [], true) ∧
    (runDailyUpdate E symbols false).2.2 = false ∧
    (∀ running : Bool, (schedulerTick E running).1.getLast? = some SchedAction.reschedule) ∧
    (schedulerTick E false).2 = false := by
  refine ⟨rfl, ?_, ?_, ?_⟩
  · simp [runDailyUpdate]
  · intro running
    unfold schedulerTick
    cases E.getSymbols with
    | none => rfl
    | some syms =>
      dsimp only
      split_ifs with h
      · simp [List.getLast?_append]
      · rfl
  · unfold schedulerTick
    cases E.getSymbols with
    | none => rfl
    | some syms =>
      dsimp only
      split_ifs with h
      · simp [runDailyUpdate]
      · rfl

/-! ## C1/C2: aggregator lemmas -/

/-- Well-formedness of the memory cache: every entry is stored under its own
symbol. Every write in the source keys the entry by the record's `symbol`
field (`cache.set(full:${d.symbol}, d)` in `batchGetFullData` and
`loadCacheFromDB`), so this invariant holds for every reachable cache. -/
def CacheWF (cache : String → Option StockFullData) : Prop :=
  ∀ k r, cache k = some r → r.symbol = k

/-- The cache-miss set of a call, in input order. -/
def missSet (env : Env) (symbols : List String) : List String :=
  symbols.filter (fun s => (env.cache (canonicalSymbol s)).isNone)

/-- The records fetched for the cache-miss set. -/
def fetchedOf (env : Env) (symbols : List String) : List StockFullData :=
  (fetchForMisses env (missSet env symbols)).1

/-- A symbol of the call that no provider resolved: it missed the memory
cache, and every fetch slot for it yielded the synthesized fallback
record. -/
def Unresolved (env : Env) (symbols : List String) (s : String) : Prop :=
  env.cache (canonicalSymbol s) = none ∧
  ∀ j (h : j < (missSet env symbols).length),
    (missSet env symbols).get ⟨j, h⟩ = s →
      (fetchedOf env symbols).getD j (createFallbackData "") = createFallbackData s

instance unresolvedDecidable (env : Env) (symbols : List String) (s : String) :
    Decidable (Unresolved env symbols s) := by
  unfold Unresolved
  infer_instance

theorem createFallbackData_symbol (s : String) :
    (createFallbackData s).symbol = canonicalSymbol s := rfl

theorem createFallbackData_price (s : String) : (createFallbackData s).price = 0 := rfl

theorem canonicalSymbol_empty : canonicalSymbol "" = "" := by decide

theorem tdMapOne_symbol (env : Env) (quotes : String → Option TDQuote) (raw : String) :
    (tdMapOne env quotes raw).symbol = canonicalSymbol raw := by
  simp only [tdMapOne]
  cases quotes (toTwelveDataSymbol raw) with
  | none => rfl
  | some q =>
    dsimp only
    by_cases hq : q.isError = true
    · rw [if_pos hq]
      exact createFallbackData_symbol raw
    · rw [if_neg hq]

theorem yfMapOne_symbol (arr : List YfRaw) (j : ℕ) (sym : String) :
    (yfMapOne arr j sym).symbol = canonicalSymbol sym := by
  simp only [yfMapOne]
  cases arr[j]? with
  | none => rfl
  | some d =>
    dsimp only
    by_cases hd : d.error = true
    · rw [if_pos hd]
      exact createFallbackData_symbol sym
    · rw [if_neg hd]

theorem fetchFromTwelveData_length (env : Env) (syms : List String) :
    (fetchFromTwelveData env syms).length = syms.length := by
  unfold fetchFromTwelveData
  split_ifs with h
  · rw [List.length_map]
  · cases env.tdQuotes <;> simp [List.length_map]

theorem fetchFromYfinance_length (env : Env) (syms : List String) :
    (fetchFromYfinance env syms).length = syms.length := by
  unfold fetchFromYfinance
  split_ifs with h
  · rw [List.length_map]
  · cases env.yfResp <;> simp [List.length_map, List.length_mapIdx]

theorem fetchForMisses_length (env : Env) (uncached : List String) :
    (fetchForMisses env uncached).1.length = uncached.length := by
  simp only [fetchForMisses]
  split_ifs with h1 h2
  · exact fetchFromYfinance_length env uncached
  · exact fetchFromTwelveData_length env uncached
  · exact fetchFromYfinance_length env uncached

theorem fetchFromTwelveData_slot (env : Env) (syms : List String) (j : ℕ)
    (h : j < syms.length) :
    (fetchFromTwelveData env syms).getD j (createFallbackData "") =
      (match env.tdQuotes with
       | none => createFallbackData (syms.get ⟨j, h⟩)
       | some quotes =>
         if env.hasKey = false || syms.isEmpty then createFallbackData (syms.get ⟨j, h⟩)
         else tdMapOne env quotes (syms.get ⟨j, h⟩)) := by
  unfold fetchFromTwelveData
  split_ifs with h1
  · rw [List.getD_eq_getElem?_getD, List.getElem?_map, List.getElem?_eq_getElem h]
    cases env.tdQuotes <;> simp [h1]
  · cases env.tdQuotes with
    | none =>
      rw [List.getD_eq_getElem?_getD, List.getElem?_map, List.getElem?_eq_getElem h]
      rfl
    | some quotes =>
      rw [List.getD_eq_getElem?_getD, List.getElem?_map, List.getElem?_eq_getElem h]
      simp [h1]

theorem fetchFromYfinance_slot (env : Env) (syms : List String) (j : ℕ)
    (h : j < syms.length) :
    (fetchFromYfinance env syms).getD j (createFallbackData "") =
      (match env.yfResp with
       | none => createFallbackData (syms.get ⟨j, h⟩)
       | some arr =>
         if env.yfAvailable = false then createFallbackData (syms.get ⟨j, h⟩)
         else yfMapOne arr j (syms.get ⟨j, h⟩)) := by
  unfold fetchFromYfinance
  split_ifs with h1
  · rw [List.getD_eq_getElem?_getD, List.getElem?_map, List.getElem?_eq_getElem h]
    cases env.yfResp <;> simp [h1]
  · cases env.yfResp with
    | none =>
      rw [List.getD_eq_getElem?_getD, List.getElem?_map, List.getElem?_eq_getElem h]
      rfl
    | some arr =>
      rw [List.getD_eq_getElem?_getD, List.getElem?_mapIdx, List.getElem?_eq_getElem h]
      simp [h1]

theorem fetchForMisses_symbol (env : Env) (uncached : List String) (j : ℕ)
    (h : j < uncached.length) :
    ((fetchForMisses env uncached).1.getD j (createFallbackData "")).symbol =
      canonicalSymbol (uncached.get ⟨j, h⟩) := by
  have htd := fetchFromTwelveData_slot env uncached j h
  have hyf := fetchFromYfinance_slot env uncached j h
  simp only [fetchForMisses]
  split_ifs with h1 h2
  · rw [hyf]
    cases env.yfResp with
    | none => rw [createFallbackData_symbol]
    | some arr =>
      split_ifs with h3
      · rw [createFallbackData_symbol]
      · rw [yfMapOne_symbol]
  · rw [htd]
    cases env.tdQuotes with
    | none => rw [createFallbackData_symbol]
    | some quotes =>
      split_ifs with h3
      · rw [createFallbackData_symbol]
      · rw [tdMapOne_symbol]
  · rw [hyf]
    cases env.yfResp with
    | none => rw [createFallbackData_symbol]
    | some arr =>
      split_ifs with h3
      · rw [createFallbackData_symbol]
      · rw [yfMapOne_symbol]

theorem setMap_lookup (m : Results) (k : String) (v : StockFullData) (s : String) :
    setMap m k v s = if s = k then some v else m s := rfl

theorem partition_snd (env : Env) (l : List String) :
    ∀ acc : Results × List String,
      (l.foldl (partitionStep env) acc).2 =
        acc.2 ++ l.filter (fun s => (env.cache (canonicalSymbol s)).isNone) := by
  induction l with
  | nil =>
    intro acc
    simp
  | cons a l ih =>
    intro acc
    rw [List.foldl_cons, List.filter_cons, ih]
    unfold partitionStep
    cases hc : env.cache (canonicalSymbol a) with
    | some c => simp [hc]
    | none => simp [hc]

theorem partition_fst_lookup (env : Env) (l : List String) :
    ∀ (acc : Results × List String) (s : String) (r : StockFullData),
      (l.foldl (partitionStep env) acc).1 s = some r →
        acc.1 s = some r ∨ env.cache (canonicalSymbol s) = some r := by
  induction l with
  | nil =>
    intro acc s r h
    exact Or.inl h
  | cons a l ih =>
    intro acc s r h
    rw [List.foldl_cons] at h
    rcases ih _ s r h with h0 | h0
    · unfold partitionStep at h0
      cases hc : env.cache (canonicalSymbol a) with
      | some c =>
        rw [hc] at h0
        dsimp only at h0
        rw [setMap_lookup] at h0
        split_ifs at h0 with hsa
        · right
          rw [hsa, hc]
          exact congrArg some (Option.some.inj h0).symm ▸ rfl
        · exact Or.inl h0
      | none =>
        rw [hc] at h0
        exact Or.inl h0
    · exact Or.inr h0

theorem missSet_eq (env : Env) (symbols : List String) :
    (partitionSymbols env symbols).2 = missSet env symbols := by
  unfold partitionSymbols missSet
  rw [partition_snd]
  simp

theorem partition_fst_spec (env : Env) (symbols : List String) (s : String)
    (r : StockFullData) (h : (partitionSymbols env symbols).1 s = some r) :
    env.cache (canonicalSymbol s) = some r := by
  unfold partitionSymbols at h
  rcases partition_fst_lookup env symbols (emptyMap, []) s r h with h0 | h0
  · exact absurd h0 (by simp [emptyMap])
  · exact h0

theorem store_fst (uncached : List String) :
    ∀ (l : List (ℕ × StockFullData)) (rs ch : Results),
      (l.foldl (storeStep uncached) (rs, ch)).1 =
        l.foldl (fun m jd => setMap m (storeKey uncached jd.1 jd.2) jd.2) rs := by
  intro l
  induction l with
  | nil =>
    intro rs ch
    rfl
  | cons jd l ih =>
    intro rs ch
    rw [List.foldl_cons, List.foldl_cons]
    exact ih _ _

theorem store_snd (uncached : List String) :
    ∀ (l : List (ℕ × StockFullData)) (rs ch : Results),
      (l.foldl (storeStep uncached) (rs, ch)).2 =
        l.foldl (fun m jd => setMap m jd.2.symbol jd.2) ch := by
  intro l
  induction l with
  | nil =>
    intro rs ch
    rfl
  | cons jd l ih =>
    intro rs ch
    rw [List.foldl_cons, List.foldl_cons]
    exact ih _ _

theorem upsert_invariant {β : Type} (key : β → String) (val : β → StockFullData)
    (Q : String → StockFullData → Prop) :
    ∀ (l : List β) (m : Results), (∀ s r, m s = some r → Q s r) →
      (∀ b ∈ l, Q (key b) (val b)) →
      ∀ s r, (l.foldl (fun m b => setMap m (key b) (val b)) m) s = some r → Q s r := by
  intro l
  induction l with
  | nil =>
    intro m hm _ s r h
    exact hm s r h
  | cons b l ih =>
    intro m hm hl s r h
    rw [List.foldl_cons] at h
    refine ih _ ?_ (fun b2 hb2 => hl b2 (List.mem_cons_of_mem _ hb2)) s r h
    intro s2 r2 h2
    rw [setMap_lookup] at h2
    split_ifs at h2 with hs2
    · rw [hs2]
      rw [← Option.some.inj h2]
      exact hl b (List.mem_cons_self _ _)
    · exact hm s2 r2 h2

theorem upsert_constant {β : Type} (key : β → String) (val : β → StockFullData)
    (s : String) (v₀ : StockFullData) :
    ∀ (l : List β) (m : Results), (∀ b ∈ l, key b = s → val b = v₀) →
      ((l.foldl (fun m b => setMap m (key b) (val b)) m) s = m s ∨
        (l.foldl (fun m b => setMap m (key b) (val b)) m) s = some v₀) := by
  intro l
  induction l with
  | nil =>
    intro m _
    exact Or.inl rfl
  | cons b l ih =>
    intro m hl
    rw [List.foldl_cons]
    rcases ih (setMap m (key b) (val b)) (fun b2 hb2 => hl b2 (List.mem_cons_of_mem _ hb2))
      with h0 | h0
    · rw [h0, setMap_lookup]
      split_ifs with hsb
      · right
        rw [hl b (List.mem_cons_self _ _) hsb.symm]
      · exact Or.inl rfl
    · exact Or.inr h0

theorem upsert_isSome_mono {β : Type} (key : β → String) (val : β → StockFullData)
    (s : String) :
    ∀ (l : List β) (m : Results), (m s).isSome →
      ((l.foldl (fun m b => setMap m (key b) (val b)) m) s).isSome := by
  intro l
  induction l with
  | nil =>
    intro m hm
    exact hm
  | cons b l ih =>
    intro m hm
    rw [List.foldl_cons]
    apply ih
    rw [setMap_lookup]
    split_ifs with hsb
    · rfl
    · exact hm

theorem upsert_written {β : Type} (key : β → String) (val : β → StockFullData)
    (s : String) :
    ∀ (l : List β) (m : Results), (∃ b ∈ l, key b = s) →
      ((l.foldl (fun m b => setMap m (key b) (val b)) m) s).isSome := by
  intro l
  induction l with
  | nil =>
    intro m h
    simp at h
  | cons b l ih =>
    intro m h
    rw [List.foldl_cons]
    rcases h with ⟨b2, hb2, hkey⟩
    rcases List.mem_cons.mp hb2 with rfl | hmem
    · apply upsert_isSome_mono
      rw [setMap_lookup, hkey]
      simp
    · exact ih _ ⟨b2, hmem, hkey⟩

theorem storeKey_symbol (env : Env) (uncached : List String) (jd : ℕ × StockFullData)
    (hjd : jd ∈ (fetchForMisses env uncached).1.enum) :
    jd.2.symbol = canonicalSymbol (storeKey uncached jd.1 jd.2) := by
  have hget : (fetchForMisses env uncached).1[jd.1]? = some jd.2 :=
    List.mem_enum_iff_getElem?.mp hjd
  have hlt : jd.1 < (fetchForMisses env uncached).1.length :=
    List.fst_lt_of_mem_enum hjd
  have hlu : jd.1 < uncached.length := by
    rw [← fetchForMisses_length env uncached]
    exact hlt
  have hdg : (fetchForMisses env uncached).1.getD jd.1 (createFallbackData "") = jd.2 := by
    rw [List.getD_eq_getElem?_getD, hget]
    rfl
  have hsym : jd.2.symbol = canonicalSymbol (uncached.get ⟨jd.1, hlu⟩) := by
    rw [← hdg]
    exact fetchForMisses_symbol env uncached jd.1 hlu
  have hgd : uncached.getD jd.1 "" = uncached.get ⟨jd.1, hlu⟩ := by
    rw [List.getD_eq_getElem?_getD, List.getElem?_eq_getElem hlu]
    rfl
  unfold storeKey
  split_ifs with hub
  · rw [hgd] at hub
    rw [hub] at hsym
    rw [canonicalSymbol_empty] at hsym
    rw [hsym, canonicalSymbol_empty]
  · rw [hgd, hsym]

/-- After the fetch phase the `results` map is keyed consistently: every
entry's record carries the canonical symbol of its key. -/
theorem batchStep_results_wf (env : Env) (symbols : List String) (hwf : CacheWF env.cache) :
    ∀ s r, (batchStep env symbols).1 s = some r → r.symbol = canonicalSymbol s := by
  intro s r h
  unfold batchStep at h
  split_ifs at h with hemp
  · exact hwf _ _ (partition_fst_spec env symbols s r h)
  · unfold storeFetched at h
    rw [store_fst] at h
    refine upsert_invariant
      (fun (jd : ℕ × StockFullData) => storeKey (partitionSymbols env symbols).2 jd.1 jd.2)
      (fun jd => jd.2) (fun s r => r.symbol = canonicalSymbol s) _ _ ?_ ?_ s r h
    · intro s2 r2 h2
      exact hwf _ _ (partition_fst_spec env symbols s2 r2 h2)
    · intro jd hjd
      exact storeKey_symbol env (partitionSymbols env symbols).2 jd hjd

/-- The cache stays well-formed across the write-back loop. -/
theorem batchStep_cache_wf (env : Env) (symbols : List String) (hwf : CacheWF env.cache) :
    CacheWF (batchStep env symbols).2 := by
  intro k r h
  unfold batchStep at h
  split_ifs at h with hemp
  · exact hwf _ _ h
  · unfold storeFetched at h
    rw [store_snd] at h
    refine upsert_invariant (fun (jd : ℕ × StockFullData) => jd.2.symbol) (fun jd => jd.2)
      (fun s r => r.symbol = s) _ _ ?_ ?_ k r h
    · intro s2 r2 h2
      exact hwf _ _ h2
    · intro jd _
      rfl

/-- [helper] `batchGetFullData` preserves the input length. -/
theorem batchGet_length (env : Env) (symbols : List String) :
    (batchGetFullData env symbols).length = symbols.length := by
  unfold batchGetFullData
  split_ifs with h
  · rw [List.isEmpty_iff.mp h]
    rfl
  · rw [List.length_map]

theorem batchGet_getD (env : Env) (symbols : List String) (i : ℕ) (h : i < symbols.length) :
    (batchGetFullData env symbols).getD i (createFallbackData "") =
      (((batchStep env symbols).1 (symbols.get ⟨i, h⟩)).or
        ((batchStep env symbols).2 (canonicalSymbol (symbols.get ⟨i, h⟩)))).getD
        (createFallbackData (symbols.get ⟨i, h⟩)) := by
  have hne : symbols.isEmpty = false := by
    cases symbols with
    | nil => simp at h
    | cons a l => rfl
  unfold batchGetFullData
  rw [if_neg (by rw [hne]; simp)]
  rw [List.getD_eq_getElem?_getD, List.getElem?_map, List.getElem?_eq_getElem h]
  rfl

/-- [helper] Each output record carries the canonical symbol of the input
symbol at its position. -/
theorem batchGet_symbol (env : Env) (symbols : List String) (hwf : CacheWF env.cache)
    (i : ℕ) (h : i < symbols.length) :
    ((batchGetFullData env symbols).getD i (createFallbackData "")).symbol =
      canonicalSymbol (symbols.get ⟨i, h⟩) := by
  rw [batchGet_getD env symbols i h]
  cases hr : (batchStep env symbols).1 (symbols.get ⟨i, h⟩) with
  | some r =>
    rw [Option.or_some]
    exact batchStep_results_wf env symbols hwf _ r hr
  | none =>
    rw [Option.none_or]
    cases hc : (batchStep env symbols).2 (canonicalSymbol (symbols.get ⟨i, h⟩)) with
    | some r => exact batchStep_cache_wf env symbols hwf _ r hc
    | none => exact createFallbackData_symbol _

/-- [helper] A requested symbol that no provider resolved comes back as its
fallback record. -/
theorem batchGet_unresolved (env : Env) (symbols : List String) (i : ℕ)
    (h : i < symbols.length) (hu : Unresolved env symbols (symbols.get ⟨i, h⟩)) :
    (batchGetFullData env symbols).getD i (createFallbackData "") =
      createFallbackData (symbols.get ⟨i, h⟩) := by
  obtain ⟨hmiss, hslots⟩ := hu
  rw [batchGet_getD env symbols i h]
  have hsmem : symbols.get ⟨i, h⟩ ∈ missSet env symbols := by
    unfold missSet
    rw [List.mem_filter]
    refine ⟨List.get_mem _ _ _, ?_⟩
    rw [hmiss]
    rfl
  have hune : (partitionSymbols env symbols).2.isEmpty = false := by
    rw [missSet_eq]
    cases hms : missSet env symbols with
    | nil =>
      rw [hms] at hsmem
      simp at hsmem
    | cons a l => rfl
  have hres : (batchStep env symbols).1 (symbols.get ⟨i, h⟩) =
      some (createFallbackData (symbols.get ⟨i, h⟩)) := by
    unfold batchStep
    rw [if_neg (by simp [hune])]
    unfold storeFetched
    rw [store_fst, missSet_eq]
    obtain ⟨⟨j, hj⟩, hjs⟩ := List.mem_iff_get.mp hsmem
    have hjf : j < (fetchForMisses env (missSet env symbols)).1.length := by
      rw [fetchForMisses_length]
      exact hj
    have henum : (j, (fetchForMisses env (missSet env symbols)).1.get ⟨j, hjf⟩) ∈
        (fetchForMisses env (missSet env symbols)).1.enum := by
      rw [List.mem_enum_iff_getElem?]
      dsimp only
      rw [List.getElem?_eq_getElem hjf]
      rfl
    have hgd : (missSet env symbols).getD j "" = (missSet env symbols).get ⟨j, hj⟩ := by
      rw [List.getD_eq_getElem?_getD, List.getElem?_eq_getElem hj]
      rfl
    have hkey : storeKey (missSet env symbols) j
        ((fetchForMisses env (missSet env symbols)).1.get ⟨j, hjf⟩) = symbols.get ⟨i, h⟩ := by
      unfold storeKey
      split_ifs with hub
      · rw [hgd] at hub
        have hsym : ((fetchForMisses env (missSet env symbols)).1.get ⟨j, hjf⟩).symbol =
            canonicalSymbol ((missSet env symbols).get ⟨j, hj⟩) := by
          have hfs := fetchForMisses_symbol env (missSet env symbols) j hj
          rw [List.getD_eq_getElem?_getD, List.getElem?_eq_getElem hjf] at hfs
          exact hfs
        rw [hsym, hub, canonicalSymbol_empty]
        rw [← hjs, hub]
      · rw [hgd, hjs]
    have hconst : ∀ jd ∈ (fetchForMisses env (missSet env symbols)).1.enum,
        storeKey (missSet env symbols) jd.1 jd.2 = symbols.get ⟨i, h⟩ →
          jd.2 = createFallbackData (symbols.get ⟨i, h⟩) := by
      intro jd hjd hk
      have hget2 : (fetchForMisses env (missSet env symbols)).1[jd.1]? = some jd.2 :=
        List.mem_enum_iff_getElem?.mp hjd
      have hlt2 : jd.1 < (fetchForMisses env (missSet env symbols)).1.length :=
        List.fst_lt_of_mem_enum hjd
      have hlu2 : jd.1 < (missSet env symbols).length := by
        rw [← fetchForMisses_length env (missSet env symbols)]
        exact hlt2
      have hdg2 : (fetchForMisses env (missSet env symbols)).1.getD jd.1
          (createFallbackData "") = jd.2 := by
        rw [List.getD_eq_getElem?_getD, hget2]
        rfl
      have hgd2 : (missSet env symbols).getD jd.1 "" =
          (missSet env symbols).get ⟨jd.1, hlu2⟩ := by
        rw [List.getD_eq_getElem?_getD, List.getElem?_eq_getElem hlu2]
        rfl
      unfold storeKey at hk
      split_ifs at hk with hub
      · rw [hgd2] at hub
        have hsym2 : jd.2.symbol =
            canonicalSymbol ((missSet env symbols).get ⟨jd.1, hlu2⟩) := by
          have hfs := fetchForMisses_symbol env (missSet env symbols) jd.1 hlu2
          rw [hdg2] at hfs
          exact hfs
        rw [hub, canonicalSymbol_empty] at hsym2
        rw [hsym2] at hk
        have hgets : (missSet env symbols).get ⟨jd.1, hlu2⟩ = symbols.get ⟨i, h⟩ := by
          rw [hub, hk]
        have hsl := hslots jd.1 hlu2 hgets
        rw [show fetchedOf env symbols = (fetchForMisses env (missSet env symbols)).1 from rfl,
          hdg2] at hsl
        exact hsl
      · rw [hgd2] at hk
        have hsl := hslots jd.1 hlu2 hk
        rw [show fetchedOf env symbols = (fetchForMisses env (missSet env symbols)).1 from rfl,
          hdg2] at hsl
        exact hsl
    have hwrit := upsert_written
      (fun (jd : ℕ × StockFullData) => storeKey (missSet env symbols) jd.1 jd.2)
      (fun jd => jd.2) (symbols.get ⟨i, h⟩)
      (fetchForMisses env (missSet env symbols)).1.enum
      (partitionSymbols env symbols).1 ⟨_, henum, hkey⟩
    have hcst := upsert_constant
      (fun (jd : ℕ × StockFullData) => storeKey (missSet env symbols) jd.1 jd.2)
      (fun jd => jd.2) (symbols.get ⟨i, h⟩) (createFallbackData (symbols.get ⟨i, h⟩))
      (fetchForMisses env (missSet env symbols)).1.enum
      (partitionSymbols env symbols).1 hconst
    have hr0 : (partitionSymbols env symbols).1 (symbols.get ⟨i, h⟩) = none := by
      cases hq : (partitionSymbols env symbols).1 (symbols.get ⟨i, h⟩) with
      | none => rfl
      | some r2 =>
        have hc2 := partition_fst_spec env symbols _ r2 hq
        rw [hmiss] at hc2
        exact absurd hc2 (by simp)
    rcases hcst with hC | hC
    · rw [hC, hr0] at hwrit
      simp at hwrit
    · exact hC
  rw [hres, Option.or_some]
  rfl

/-! ## C1: totality, order preservation and fallback of the aggregator -/

/-- [C1] `batchGetFullData` is a total function (the embedding is pure: no
exception path exists) returning exactly one record per requested symbol, in
input order — the record at position `i` carries the canonical symbol of
input `i` — and every symbol that no provider resolved comes back as the
synthesized fallback record, whose `price` is `0`. -/
theorem batchGetFullData_total_spec (env : Env) (symbols : List String)
    (hwf : CacheWF env.cache) :
    (batchGetFullData env symbols).length = symbols.length ∧
    (∀ i (h : i < symbols.length),
      ((batchGetFullData env symbols).getD i (createFallbackData "")).symbol =
        canonicalSymbol (symbols.get ⟨i, h⟩)) ∧
    (∀ i (h : i < symbols.length), Unresolved env symbols (symbols.get ⟨i, h⟩) →
      (batchGetFullData env symbols).getD i (createFallbackData "") =
        createFallbackData (symbols.get ⟨i, h⟩) ∧
      ((batchGetFullData env symbols).getD i (createFallbackData "")).price = 0) :=
  ⟨batchGet_length env symbols,
   fun i h => batchGet_symbol env symbols hwf i h,
   fun i h hu =>
     ⟨batchGet_unresolved env symbols i h hu,
      by rw [batchGet_unresolved env symbols i h hu, createFallbackData_price]⟩⟩

/-- [C1, witness] A batch over the unconfigured world with a duplicate and an
unknown symbol: 4 symbols in, 4 records out, position 3 is the fallback with
price 0, and position 1 carries the canonical Taiwan symbol. -/
theorem batchGetFullData_total_spec_witness :
    (batchGetFullData emptyEnv ["AAPL", "2330", "AAPL", "ZZZ9"]).length = 4 ∧
    ((batchGetFullData emptyEnv ["AAPL", "2330", "AAPL", "ZZZ9"]).getD 1
      (createFallbackData "")).symbol = "2330.TW" ∧
    ((batchGetFullData emptyEnv ["AAPL", "2330", "AAPL", "ZZZ9"]).getD 3
      (createFallbackData "")).price = 0 := by
  have hwf : CacheWF emptyEnv.cache := by
    intro k r h
    exact Option.noConfusion h
  have hmain := batchGetFullData_total_spec emptyEnv ["AAPL", "2330", "AAPL", "ZZZ9"] hwf
  refine ⟨hmain.1, ?_, (hmain.2.2 3 (by decide) (by decide)).2⟩
  have hsym := hmain.2.1 1 (by decide)
  rw [hsym]
  decide

/-! ## C2: provider fallback policy -/

theorem fetchForMisses_outage (env : Env) (u : List String)
    (h1 : env.hasKey = false ∨ env.tdQuotes = none) (h2 : env.yfAvailable = false) :
    (fetchForMisses env u).1 = u.map createFallbackData := by
  have hyf : fetchFromYfinance env u = u.map createFallbackData := by
    unfold fetchFromYfinance
    rw [if_pos h2]
  simp only [fetchForMisses]
  split_ifs with hk hall
  · exact hyf
  · exfalso
    apply hall
    have htd : fetchFromTwelveData env u = u.map createFallbackData := by
      unfold fetchFromTwelveData
      rcases h1 with h1 | h1
      · rw [h1] at hk
        exact absurd hk (by simp)
      · split_ifs with hcond
        · rfl
        · rw [h1]
    rw [htd, List.all_eq_true]
    intro d hd
    rw [List.mem_map] at hd
    obtain ⟨x, -, rfl⟩ := hd
    simp [createFallbackData_price]
  · exact hyf

theorem batchGet_outage (env : Env) (symbols : List String)
    (h1 : env.hasKey = false ∨ env.tdQuotes = none) (h2 : env.yfAvailable = false)
    (hc : ∀ k, env.cache k = none) :
    batchGetFullData env symbols = symbols.map createFallbackData := by
  apply List.ext_getElem
  · rw [batchGet_length, List.length_map]
  intro i hi1 hi2
  have hi : i < symbols.length := by
    rw [batchGet_length] at hi1
    exact hi1
  have hL : (batchGetFullData env symbols)[i] =
      (batchGetFullData env symbols).getD i (createFallbackData "") := by
    rw [List.getD_eq_getElem?_getD, List.getElem?_eq_getElem hi1]
    rfl
  rw [hL, List.getElem_map]
  rw [batchGet_unresolved env symbols i hi ?hu]
  case hu =>
    constructor
    · exact hc _
    · intro j hj hget
      rw [show fetchedOf env symbols = (fetchForMisses env (missSet env symbols)).1 from rfl,
        fetchForMisses_outage env _ h1 h2]
      rw [List.getD_eq_getElem?_getD, List.getElem?_map, List.getElem?_eq_getElem hj]
      exact congrArg createFallbackData hget
  rw [List.get_eq_getElem]

/-- [C2] The yfinance adapter is invoked over the miss set exactly when the
primary is unconfigured (no `TWELVE_DATA_API_KEY`) or the primary batch came
back all-unresolved (every record priced 0); and under a total outage (no
provider configured or reachable, cold cache) the call still returns, one
fallback record per symbol — a primary failure is never surfaced as an
error. -/
theorem secondary_adapter_policy (env : Env) (uncached symbols : List String) :
    ((fetchForMisses env uncached).2 = true ↔
      env.hasKey = false ∨
        (fetchFromTwelveData env uncached).all (fun d => d.price = 0) = true) ∧
    ((env.hasKey = false ∨ env.tdQuotes = none) → env.yfAvailable = false →
      (∀ k, env.cache k = none) →
      batchGetFullData env symbols = symbols.map createFallbackData ∧
      (batchGetFullData env symbols).length = symbols.length) := by
  constructor
  · simp only [fetchForMisses]
    split_ifs with hk hall
    · simp [hk, hall]
    · simp [hk, hall]
    · have hk0 : env.hasKey = false := by
        revert hk
        cases env.hasKey <;> simp
      simp [hk0]
  · intro h1 h2 hc
    exact ⟨batchGet_outage env symbols h1 h2 hc, batchGet_length env symbols⟩

/-- [C2, witness] Over the fully-down world, the dispatch reports the
fallback adapter and the batch resolves to fallback records. -/
theorem secondary_adapter_policy_witness :
    batchGetFullData emptyEnv ["AAPL", "2330"] =
      [createFallbackData "AAPL", createFallbackData "2330"] ∧
    (fetchForMisses emptyEnv ["AAPL", "2330"]).2 = true := by
  have hmain := secondary_adapter_policy emptyEnv ["AAPL", "2330"] ["AAPL", "2330"]
  exact ⟨(hmain.2 (Or.inl rfl) rfl (fun k => rfl)).1,
    hmain.1.mpr (Or.inl rfl)⟩

end StockDash
